import Mathlib

/-!
# A verification development for the terminal text editor (`src/main.c`)

The editor keeps its whole state in one global `struct editorConfig E`.  The
embedding below passes that state explicitly.

Conventions of the embedding

* A C byte (`char`) is a `Nat` in `0..255`.  A `char *` buffer together with
  its length field is a `List Nat`: `row->chars` with `row->size` is
  `erow.chars` with `erow.size = chars.length`, and `E.row` with `E.numRows`
  is `editorConfig.row` with `numRows = row.length`.
* `int` fields that the code compares, decrements or subtracts (`cx`, `cy`,
  `rx`, the offsets, the screen size, `dirty`, `rsize`) are `Int`; the values
  stay far inside the 32-bit range for any document that fits in memory, so
  no wrap-around is modelled.
* Loop counters that only grow from a value that is not negative (`rx` in
  `cxToRx`, `idx` in `editorUpdateRow`) are `Nat`; on them C's `%` and Lean's
  `%` agree.
* `editorUpdateRow` declares its write index without an initial value (line
  192).  `editorUpdateRow` below is the function with the index starting at
  `0`; `editorUpdateRowFrom` takes the value found in `idx` as a parameter.
* An operation that reads `E.row[i]` outside `0 .. numRows-1`, or
  `row->chars[i]` outside the row, or that cannot finish, has no defined
  result in C: such operations return `Except Fault _`.
* The append buffer `struct abuf` is the list of the bytes appended so far;
  `realloc` is taken to succeed.  The frame of `editorRefreshScreen` is the
  list handed to `write`, and `time(NULL)` is a parameter.
-/

namespace TextEditor

/-! ## Constants (`main.c` lines 22-37) -/

/-- The tab stop, `#define EDITOR_TAB_STOP 4`. -/
def EDITOR_TAB_STOP : Nat := 4

/-- The tab byte `'\t'`. -/
def TAB : Nat := 9

/-- The space byte `' '`. -/
def SPACE : Nat := 32

/-- The newline byte `'\n'`. -/
def NL : Nat := 10

/-- The escape byte `'\x1b'`. -/
def ESC : Nat := 27

/-! ## Rows (`main.c` lines 41-46) -/

/-- One row of text, `struct erow`.  `size` is the length of `chars`. -/
structure erow where
  chars : List Nat
  rsize : Int
  render : List Nat
deriving DecidableEq, Repr

/-- The field `row->size`. -/
def erow.size (row : erow) : Int := (row.chars.length : Int)

/-! ## Row operations (`main.c` lines 171-204) -/

/-- One step of the loop body of `cxToRx` (lines 175-177) for the byte `ch`. -/
def cxToRxStep (rx : Nat) (ch : Nat) : Nat :=
  (if ch = TAB then rx + ((EDITOR_TAB_STOP - 1) - (rx % EDITOR_TAB_STOP)) else rx) + 1

/-- Possible ways for an operation to have no result state. -/
inductive Fault where
  | outOfBounds
  | diverges
  | exited
deriving DecidableEq, Repr

/-- Reading `row->chars[i]`. -/
def readChar (row : erow) (i : Nat) : Except Fault Nat :=
  match row.chars.get? i with
  | some ch => .ok ch
  | none => .error .outOfBounds

/-- The loop of `cxToRx` (lines 174-178): `n` iterations remain, the loop
variable is `i` and the accumulator is `rx`. -/
def cxToRxLoop (row : erow) : Nat → Nat → Nat → Except Fault Nat
  | 0, _, rx => .ok rx
  | n + 1, i, rx =>
    match readChar row i with
    | .ok ch => cxToRxLoop row n (i + 1) (cxToRxStep rx ch)
    | .error e => .error e

/-- Function `cxToRx(row, cx)` (lines 171-180): `for (i = 0; i < cx; i++)`
runs `cx` times for `cx >= 0` and not at all for `cx < 0`. -/
def cxToRx (row : erow) (cx : Int) : Except Fault Int :=
  match cxToRxLoop row cx.toNat 0 0 with
  | .ok rx => .ok (rx : Int)
  | .error e => .error e

/-- The first loop of `editorUpdateRow` (lines 185-188): the number of tabs. -/
def countTabs : List Nat → Nat
  | [] => 0
  | ch :: rest => (if ch = TAB then 1 else 0) + countTabs rest

/-- The inner loop `while (idx % EDITOR_TAB_STOP != 0) render[idx++] = ' '`
(line 196), with a bound on the number of iterations; `EDITOR_TAB_STOP` rounds
always reach the exit test (`padLoop_exit`). -/
def padLoop : Nat → Nat → List Nat → Nat × List Nat
  | 0, idx, out => (idx, out)
  | fuel + 1, idx, out =>
    if idx % EDITOR_TAB_STOP ≠ 0 then padLoop fuel (idx + 1) (out ++ [SPACE])
    else (idx, out)

/-- The second loop of `editorUpdateRow` (lines 193-201) over the remaining
bytes of `chars`; `idx` is the write index and `out` the bytes written so far.
In the tab branch line 195 stores `row->chars[i]` itself, then line 196 pads. -/
def updateLoop : List Nat → Nat → List Nat → Nat × List Nat
  | [], idx, out => (idx, out)
  | ch :: rest, idx, out =>
    if ch = TAB then
      let p := padLoop EDITOR_TAB_STOP (idx + 1) (out ++ [ch])
      updateLoop rest p.1 p.2
    else
      updateLoop rest (idx + 1) (out ++ [ch])

/-- Function `editorUpdateRow` (lines 182-204).  Line 192 declares `int idx;`
without an initial value; the write index is taken to start at `0`.  For any
other value found in `idx` see `editorUpdateRowFrom`. -/
def editorUpdateRow (row : erow) : erow :=
  let r := updateLoop row.chars 0 []
  { row with render := r.2, rsize := (r.1 : Int) }

/-- A row holding `chars` with no render cache yet (lines 210-216). -/
def freshRow (chars : List Nat) : erow :=
  { chars := chars, rsize := 0, render := [] }

/-! ## Editor state (`main.c` lines 48-63) -/

/-- The global `struct editorConfig E`.  `numRows` is the length of `row`;
`origTermios` is not part of the editing state. -/
structure editorConfig where
  cx : Int
  cy : Int
  rx : Int
  rowOff : Int
  colOff : Int
  screenRows : Int
  screenCols : Int
  dirty : Int
  row : List erow
  fileName : Option (List Nat)
  statusMsg : List Nat
  statusMsgTime : Int
deriving DecidableEq, Repr

/-- The field `E.numRows`. -/
def editorConfig.numRows (E : editorConfig) : Int := (E.row.length : Int)

/-- Reading the row `E.row[i]`: defined for `0 <= i < numRows` only. -/
def rowAt (E : editorConfig) (i : Int) : Except Fault erow :=
  if 0 ≤ i then
    match E.row.get? i.toNat with
    | some r => .ok r
    | none => .error .outOfBounds
  else .error .outOfBounds

/-- Function `editorAppendRow(s, len)` (lines 206-221): the new row copies the
first `len` bytes of `s`, gets its render cache, and `numRows` and `dirty`
grow by one. -/
def editorAppendRow (E : editorConfig) (s : List Nat) (len : Nat) : editorConfig :=
  { E with row := E.row ++ [editorUpdateRow (freshRow (s.take len))],
           dirty := E.dirty + 1 }

/-- The conversion of an `int` to the byte stored by `row->chars[at] = c`. -/
def charOfInt (c : Int) : Nat := (c % 256).toNat

/-- The row part of `editorRowInsertChar(row, at, c)` (lines 224-230). -/
def rowInsertChar (row : erow) (pos : Int) (c : Int) : erow :=
  let pos := if pos < 0 ∨ pos > row.size then row.size else pos
  editorUpdateRow
    { row with chars := row.chars.take pos.toNat ++ [charOfInt c] ++ row.chars.drop pos.toNat }

/-- Function `editorRowInsertChar(&E.row[i], at, c)` (lines 223-232): the row
is changed in place and `E.dirty` grows by one. -/
def editorRowInsertChar (E : editorConfig) (i : Int) (pos : Int) (c : Int) :
    Except Fault editorConfig :=
  match rowAt E i with
  | .ok r => .ok { E with row := E.row.set i.toNat (rowInsertChar r pos c),
                          dirty := E.dirty + 1 }
  | .error e => .error e

/-- Function `editorInsertChar(c)` (lines 236-242). -/
def editorInsertChar (E : editorConfig) (c : Int) : Except Fault editorConfig :=
  let E1 := if E.cy = E.numRows then editorAppendRow E [SPACE] 0 else E
  match editorRowInsertChar E1 E1.cy E1.cx c with
  | .ok E2 => .ok { E2 with cx := E2.cx + 1 }
  | .error e => .error e

/-! ## File input and output (`main.c` lines 246-285) -/

/-- The first loop of `editorRowsToString` (lines 249-251). -/
def totlenLoop : List erow → Int → Int
  | [], totlen => totlen
  | r :: rest, totlen => totlenLoop rest (totlen + (r.size + 1))

/-- The second loop of `editorRowsToString` (lines 256-261); `buf` holds the
bytes written before the pointer `p`. -/
def copyLoop : List erow → List Nat → List Nat
  | [], buf => buf
  | r :: rest, buf => copyLoop rest (buf ++ r.chars ++ [NL])

/-- Function `editorRowsToString(&buflen)` (lines 246-263): the state after
the call, the buffer returned and the value stored in `*buflen`. -/
def editorRowsToString (E : editorConfig) : editorConfig × List Nat × Int :=
  (E, copyLoop E.row [], totlenLoop E.row 0)

/-- The state set up by `initEditor` (lines 561-577) for a window of `rows`
lines and `cols` columns. -/
def initEditor (rows cols : Int) : editorConfig :=
  { cx := 0, cy := 0, rx := 0, rowOff := 0, colOff := 0,
    screenRows := rows - 2, screenCols := cols, dirty := 0, row := [],
    fileName := none, statusMsg := [], statusMsgTime := 0 }

/-! ## Key codes (`main.c` lines 22-37) -/

/-- The macro `CTRL_KEY(k)`, `(k) & 0x1f`, on a character constant. -/
def CTRL_KEY (k : Nat) : Int := ((k &&& 0x1f : Nat) : Int)

def BACKSPACE : Int := 127
def ARROW_LEFT : Int := 1000
def ARROW_RIGHT : Int := 1001
def ARROW_UP : Int := 1002
def ARROW_DOWN : Int := 1003
def DEL_KEY : Int := 1004
def HOME_KEY : Int := 1005
def END_KEY : Int := 1006
def PAGE_UP : Int := 1007
def PAGE_DOWN : Int := 1008

/-! ## Input decoding (`main.c` lines 101-155) -/

/-- The outcome of one call `read(STDIN_FILENO, &c, 1)`: one byte was read
(return value `1`), the read timed out (`0`), or it failed (`-1`) with `errno`
equal to `EAGAIN` or to something else. -/
inductive ReadResult where
  | byte (b : Nat)
  | timeout
  | eagain
  | error
deriving DecidableEq, Repr

/-- What a call of `editorReadKey` comes to: it returns a key and leaves the
rest of the outcomes unread, it ends the process through `kill("read")`, or it
never returns. -/
inductive ReadKey where
  | key (k : Int) (rest : List ReadResult)
  | fatal
  | blocked
deriving DecidableEq, Repr

/-- A follow-up read `read(STDIN_FILENO, &seq[i], 1)`, tested with `!= 1`:
the byte if one was read, and the outcomes left.  A terminal that has nothing
more to deliver (no outcome left) lets the read time out. -/
def readSeq : List ReadResult → Option Nat × List ReadResult
  | [] => (none, [])
  | .byte b :: rest => (some b, rest)
  | _ :: rest => (none, rest)

/-- The `switch (seq[1])` of lines 122-130, reached after `seq[2] == '~'`. -/
def tildeKey (d : Nat) : Int :=
  if d = 49 then HOME_KEY
  else if d = 51 then DEL_KEY
  else if d = 52 then END_KEY
  else if d = 53 then PAGE_UP
  else if d = 54 then PAGE_DOWN
  else if d = 55 then HOME_KEY
  else if d = 56 then END_KEY
  else (ESC : Int)

/-- The `switch (seq[1])` of lines 135-142 after `ESC [`. -/
def bracketKey (l : Nat) : Int :=
  if l = 65 then ARROW_UP
  else if l = 66 then ARROW_DOWN
  else if l = 67 then ARROW_RIGHT
  else if l = 68 then ARROW_LEFT
  else if l = 70 then END_KEY
  else if l = 72 then HOME_KEY
  else (ESC : Int)

/-- The `switch (seq[1])` of lines 146-149 after `ESC O`. -/
def oKey (l : Nat) : Int :=
  if l = 70 then END_KEY
  else if l = 72 then HOME_KEY
  else (ESC : Int)

/-- The branch of `editorReadKey` taken after an escape byte (lines 110-151),
on the outcomes of the reads that follow. -/
def readEscape (s : List ReadResult) : ReadKey :=
  match readSeq s with
  | (none, s1) => .key (ESC : Int) s1
  | (some seq0, s1) =>
    match readSeq s1 with
    | (none, s2) => .key (ESC : Int) s2
    | (some seq1, s2) =>
      if seq0 = 91 then
        if 48 ≤ seq1 ∧ seq1 ≤ 57 then
          match readSeq s2 with
          | (none, s3) => .key (ESC : Int) s3
          | (some seq2, s3) =>
            if seq2 = 126 then .key (tildeKey seq1) s3 else .key (ESC : Int) s3
        else .key (bracketKey seq1) s2
      else if seq0 = 79 then .key (oKey seq1) s2
      else .key (ESC : Int) s2

/-- Function `editorReadKey` (lines 101-155) on the outcomes of the successive
`read` calls.  The loop of lines 104-107 repeats the read until a byte comes;
with no outcome left it waits for ever. -/
def editorReadKey : List ReadResult → ReadKey
  | [] => .blocked
  | .byte c :: rest => if c = ESC then readEscape rest else .key (c : Int) rest
  | .timeout :: rest => editorReadKey rest
  | .eagain :: rest => editorReadKey rest
  | .error :: _ => .fatal

/-! ## Cursor movement and key handling (`main.c` lines 335-435) -/

/-- The pointer `row` of `editorMoveCursor` (lines 336 and 366): `NULL` when
`E.cy >= E.numRows`, else the address of `E.row[E.cy]`, kept as the index. -/
def rowPtr (E : editorConfig) : Option Int :=
  if E.cy ≥ E.numRows then none else some E.cy

/-- The `switch (key)` of `editorMoveCursor` (lines 337-364). -/
def editorMoveCursorSwitch (E : editorConfig) (key : Int) : Except Fault editorConfig :=
  if key = ARROW_LEFT then
    if E.cx ≠ 0 then .ok { E with cx := E.cx - 1 }
    else if E.cy > 0 then
      match rowAt E (E.cy - 1) with
      | .ok r => .ok { E with cy := E.cy - 1, cx := r.size }
      | .error e => .error e
    else .ok E
  else if key = ARROW_RIGHT then
    match rowPtr E with
    | none => .ok E
    | some i =>
      match rowAt E i with
      | .ok r =>
        if E.cx < r.size then .ok { E with cx := E.cx + 1 }
        else if E.cx = r.size then .ok { E with cy := E.cy + 1, cx := 0 }
        else .ok E
      | .error e => .error e
  else if key = ARROW_UP then
    if E.cx ≠ 0 then .ok { E with cy := E.cy - 1 } else .ok E
  else if key = ARROW_DOWN then
    if E.cy ≠ E.numRows then .ok { E with cy := E.cy + 1 } else .ok E
  else .ok E

/-- The end of `editorMoveCursor` (lines 366-369): `E.cx` is cut down to the
length of the row the cursor is on now. -/
def clampCx (E : editorConfig) : Except Fault editorConfig :=
  match rowPtr E with
  | none => .ok (if E.cx > 0 then { E with cx := 0 } else E)
  | some i =>
    match rowAt E i with
    | .ok r => .ok (if E.cx > r.size then { E with cx := r.size } else E)
    | .error e => .error e

/-- Function `editorMoveCursor(key)` (lines 335-370). -/
def editorMoveCursor (E : editorConfig) (key : Int) : Except Fault editorConfig :=
  match editorMoveCursorSwitch E key with
  | .ok E1 => clampCx E1
  | .error e => .error e

/-- The loop `while (times--) editorMoveCursor(...)` of lines 415-416 with
the argument `key`, run `n` times. -/
def moveLoop (key : Int) : Nat → editorConfig → Except Fault editorConfig
  | 0, E => .ok E
  | n + 1, E =>
    match editorMoveCursor E key with
    | .ok E1 => moveLoop key n E1
    | .error e => .error e

/-- The argument of line 416, `c = PAGE_UP ? ARROW_UP : ARROW_DOWN`: an
assignment whose right-hand side tests the constant `PAGE_UP`. -/
def pageMoveKey : Int := if PAGE_UP ≠ 0 then ARROW_UP else ARROW_DOWN

/-- Function `editorSave` (lines 287-308) as far as it changes the state:
`ioOk` tells whether opening, truncating and writing the file succeeded. -/
def editorSave (E : editorConfig) (ioOk : Bool) : editorConfig :=
  match E.fileName with
  | none => E
  | some _ => if ioOk then { E with dirty := 0 } else E

/-- Function `editorProcessKey` (lines 372-435) for the key `c` that
`editorReadKey` returned.  `times--` reaches `0` after `screenRows` rounds when
`screenRows >= 0` and not before the counter wraps otherwise. -/
def editorProcessKey (E : editorConfig) (c : Int) (ioOk : Bool) : Except Fault editorConfig :=
  if c = 13 then .ok E
  else if c = CTRL_KEY 113 then .error .exited
  else if c = CTRL_KEY 115 then .ok (editorSave E ioOk)
  else if c = HOME_KEY then .ok { E with cx := 0 }
  else if c = END_KEY then
    if E.cy < E.numRows then
      match rowAt E E.cy with
      | .ok r => .ok { E with cx := r.size }
      | .error e => .error e
    else .ok E
  else if c = BACKSPACE ∨ c = CTRL_KEY 104 ∨ c = DEL_KEY then .ok E
  else if c = PAGE_UP ∨ c = PAGE_DOWN then
    let E1 :=
      if c = PAGE_UP then { E with cy := E.rowOff }
      else if c = PAGE_DOWN then
        let E2 := { E with cy := E.rowOff + E.screenRows - 1 }
        if E2.cy > E2.numRows then { E2 with cy := E2.numRows } else E2
      else E
    if E1.screenRows < 0 then .error .diverges
    else moveLoop pageMoveKey E1.screenRows.toNat E1
  else if c = ARROW_UP ∨ c = ARROW_DOWN ∨ c = ARROW_LEFT ∨ c = ARROW_RIGHT then
    editorMoveCursor E c
  else if c = CTRL_KEY 108 ∨ c = (ESC : Int) then .ok E
  else editorInsertChar E c

/-! ## Scrolling (`main.c` lines 439-457) -/

/-- Function `editorScroll` (lines 439-457). -/
def editorScroll (E : editorConfig) : Except Fault editorConfig :=
  let E0 := { E with rx := 0 }
  let step1 : Except Fault editorConfig :=
    if E0.cy < E0.numRows then
      match rowAt E0 E0.cy with
      | .ok r =>
        match cxToRx r E0.cx with
        | .ok rx => .ok { E0 with rx := rx }
        | .error e => .error e
      | .error e => .error e
    else .ok E0
  match step1 with
  | .error e => .error e
  | .ok E1 =>
    let E2 := if E1.cy < E1.rowOff then { E1 with rowOff := E1.cy } else E1
    let E3 := if E2.cy ≥ E2.rowOff + E2.screenRows
              then { E2 with rowOff := E2.cy - E2.screenRows + 1 } else E2
    let E4 := if E3.rx < E3.colOff then { E3 with colOff := E3.rx } else E3
    let E5 := if E4.rx ≥ E4.colOff + E4.screenCols
              then { E4 with colOff := E4.rx - E4.screenCols + 1 } else E4
    .ok E5

/-! ## Output (`main.c` lines 312-331 and 458-548) -/

/-- Function `abAppend(ab, s, len)` (lines 319-327) when `realloc` succeeds:
the first `len` bytes of `s` are added to the buffer.  With `len < 0`, or with
`len` beyond the bytes that `s` holds, the `memcpy` has no defined result. -/
def abAppend (ab : List Nat) (s : List Nat) (len : Int) : Except Fault (List Nat) :=
  if 0 ≤ len ∧ len ≤ (s.length : Int) then .ok (ab ++ s.take len.toNat)
  else .error .outOfBounds

/-- The text `"Editor -- version 1.0.0"` that `snprintf` writes into `welcome`
(lines 465-466). -/
def welcomeText : List Nat :=
  [69, 100, 105, 116, 111, 114, 32, 45, 45, 32, 118, 101, 114, 115, 105, 111, 110, 32,
   49, 46, 48, 46, 48]

/-- The string `"~"`. -/
def TILDE : List Nat := [126]

/-- The string `"\x1b[K"`, clear to the end of the line. -/
def CLEAR_LINE : List Nat := [27, 91, 75]

/-- The string `"\r\n"`. -/
def CRLF : List Nat := [13, 10]

/-- The string `"\x1b[?25l"`, hide the cursor. -/
def HIDE_CURSOR : List Nat := [27, 91, 63, 50, 53, 108]

/-- The string `"\x1b[?25h"`, show the cursor. -/
def SHOW_CURSOR : List Nat := [27, 91, 63, 50, 53, 104]

/-- The string `"\x1b[H"`, move the cursor to the top left. -/
def CURSOR_HOME : List Nat := [27, 91, 72]

/-- The string literal of line 535 as it is written in the source, `"x1b[H"`:
the five characters `x`, `1`, `b`, `[`, `H`. -/
def LINE_535_LITERAL : List Nat := [120, 49, 98, 91, 72]

/-- The loop `while (padding--) abAppend(ab, " ", 1)` (lines 474-475), run `n`
times. -/
def paddingLoop : Nat → List Nat → Except Fault (List Nat)
  | 0, ab => .ok ab
  | n + 1, ab =>
    match abAppend ab [SPACE] 1 with
    | .ok ab1 => paddingLoop n ab1
    | .error e => .error e

/-- The welcome branch of `editorDrawRows` (lines 464-475).  The text in
`welcome` is measured and the padding is written; no call appends the text.
`padding--` reaches `0` after `padding` rounds when `padding >= 0`. -/
def drawWelcome (E : editorConfig) (ab : List Nat) : Except Fault (List Nat) :=
  let welcomeLen : Int := (welcomeText.length : Int)
  let welcomeLen := if welcomeLen > E.screenCols then E.screenCols else welcomeLen
  let padding := Int.tdiv (E.screenCols - welcomeLen) 2
  let spaces (padding : Int) (ab : List Nat) : Except Fault (List Nat) :=
    if padding < 0 then .error .diverges else paddingLoop padding.toNat ab
  if padding ≠ 0 then
    match abAppend ab TILDE 1 with
    | .ok ab1 => spaces (padding - 1) ab1
    | .error e => .error e
  else spaces padding ab

/-- The length `len` of the slice of a row that `editorDrawRows` emits (lines
481-485). -/
def sliceLen (E : editorConfig) (r : erow) : Int :=
  let len := r.rsize - E.colOff
  let len := if len < 0 then 0 else len
  if len > E.screenCols then E.screenCols else len

/-- The bytes at the address `&row->render[colOff]`. -/
def renderFrom (r : erow) (colOff : Int) : List Nat :=
  if 0 ≤ colOff then r.render.drop colOff.toNat else []

/-- The body of the loop of `editorDrawRows` for the screen row `i` (lines
461-490). -/
def drawRow (E : editorConfig) (i : Int) (ab : List Nat) : Except Fault (List Nat) :=
  let fileRow := i + E.rowOff
  let line : Except Fault (List Nat) :=
    if fileRow ≥ E.numRows then
      if E.numRows = 0 ∧ i = Int.tdiv E.screenRows 3 then drawWelcome E ab
      else abAppend ab TILDE 1
    else
      match rowAt E fileRow with
      | .ok r => abAppend ab (renderFrom r E.colOff) (sliceLen E r)
      | .error e => .error e
  match line with
  | .ok ab1 =>
    match abAppend ab1 CLEAR_LINE 3 with
    | .ok ab2 => abAppend ab2 CRLF 2
    | .error e => .error e
  | .error e => .error e

/-- The loop `for (i = 0; i < E.screenRows; i++)` of `editorDrawRows` with `n`
rounds left and the loop variable at `i`. -/
def drawRowsLoop (E : editorConfig) : Nat → Int → List Nat → Except Fault (List Nat)
  | 0, _, ab => .ok ab
  | n + 1, i, ab =>
    match drawRow E i ab with
    | .ok ab1 => drawRowsLoop E n (i + 1) ab1
    | .error e => .error e

/-- Function `editorDrawRows(ab)` (lines 458-492). -/
def editorDrawRows (E : editorConfig) (ab : List Nat) : Except Fault (List Nat) :=
  drawRowsLoop E E.screenRows.toNat 0 ab

/-- The decimal digits of `n`, most significant first, in front of `acc`. -/
def decDigits : Nat → Nat → List Nat → List Nat
  | 0, _, acc => acc
  | fuel + 1, n, acc =>
    if n / 10 = 0 then (48 + n % 10) :: acc
    else decDigits fuel (n / 10) ((48 + n % 10) :: acc)

/-- The conversion `%d` of `snprintf`. -/
def fmtInt (n : Int) : List Nat :=
  if n < 0 then 45 :: decDigits (n.natAbs + 1) n.natAbs []
  else decDigits (n.natAbs + 1) n.natAbs []

/-- The text that line 497 formats into `status`:
`"%.20s - %d lines %s"`. -/
def statusText (E : editorConfig) : List Nat :=
  (match E.fileName with
    | some name => name.take 20
    | none => [91, 78, 111, 32, 78, 97, 109, 101, 93])
  ++ [32, 45, 32] ++ fmtInt E.numRows ++ [32, 108, 105, 110, 101, 115, 32]
  ++ (if E.dirty ≠ 0 then [40, 109, 111, 100, 105, 102, 105, 101, 100, 41] else [])

/-- The text that line 498 formats into `rstatus`: `"%d/%d"`. -/
def rstatusText (E : editorConfig) : List Nat :=
  fmtInt (E.cy + 1) ++ [47] ++ fmtInt E.numRows

/-- The loop of `editorDrawStatusBar` (lines 502-511) with `n` rounds left. -/
def statusPadLoop (E : editorConfig) (rstatus : List Nat) (rlen : Int) :
    Nat → Int → List Nat → Except Fault (List Nat)
  | 0, _, ab => .ok ab
  | n + 1, len, ab =>
    if len < E.screenCols then
      if E.screenCols - len = rlen then abAppend ab rstatus rlen
      else
        match abAppend ab [SPACE] 1 with
        | .ok ab1 => statusPadLoop E rstatus rlen n (len + 1) ab1
        | .error e => .error e
    else .ok ab

/-- Function `editorDrawStatusBar(ab)` (lines 494-514).  `snprintf` returns
the length of the whole text and stores at most 79 bytes of it; the loop ends
after at most `screenCols - len` rounds. -/
def editorDrawStatusBar (E : editorConfig) (ab : List Nat) : Except Fault (List Nat) :=
  match abAppend ab [27, 91, 55, 109] 4 with
  | .error e => .error e
  | .ok ab1 =>
    let status := (statusText E).take 79
    let rstatus := (rstatusText E).take 79
    let len : Int := ((statusText E).length : Int)
    let rlen : Int := ((rstatusText E).length : Int)
    let len := if len > E.screenCols then E.screenCols else len
    match abAppend ab1 status len with
    | .error e => .error e
    | .ok ab2 =>
      match statusPadLoop E rstatus rlen (E.screenCols - len).toNat len ab2 with
      | .error e => .error e
      | .ok ab3 =>
        match abAppend ab3 [27, 91, 109] 3 with
        | .ok ab4 => abAppend ab4 CRLF 2
        | .error e => .error e

/-- Function `editorDrawMessageBar(ab)` (lines 516-523); `now` is the value of
`time(NULL)`. -/
def editorDrawMessageBar (E : editorConfig) (now : Int) (ab : List Nat) :
    Except Fault (List Nat) :=
  match abAppend ab CLEAR_LINE 3 with
  | .error e => .error e
  | .ok ab1 =>
    let msglen : Int := (E.statusMsg.length : Int)
    let msglen := if msglen > E.screenCols then E.screenCols else msglen
    if msglen ≠ 0 ∧ now - E.statusMsgTime < 5 then abAppend ab1 E.statusMsg msglen
    else .ok ab1

/-- The text that line 541 formats into `buf`: `"\x1b[%d;%dH"`. -/
def cursorPosText (E : editorConfig) : List Nat :=
  [27, 91] ++ fmtInt ((E.cy - E.rowOff) + 1) ++ [59] ++ fmtInt ((E.rx - E.colOff) + 1) ++ [72]

/-- Function `editorRefreshScreen` (lines 526-548): the state after
`editorScroll` and the bytes handed to `write`.  Line 535 appends the first
three bytes of its literal. -/
def editorRefreshScreen (E : editorConfig) (now : Int) :
    Except Fault (editorConfig × List Nat) :=
  match editorScroll E with
  | .error e => .error e
  | .ok E1 =>
    match abAppend [] HIDE_CURSOR 6 with
    | .error e => .error e
    | .ok ab1 =>
      match abAppend ab1 LINE_535_LITERAL 3 with
      | .error e => .error e
      | .ok ab2 =>
        match editorDrawRows E1 ab2 with
        | .error e => .error e
        | .ok ab3 =>
          match editorDrawStatusBar E1 ab3 with
          | .error e => .error e
          | .ok ab4 =>
            match editorDrawMessageBar E1 now ab4 with
            | .error e => .error e
            | .ok ab5 =>
              let buf := (cursorPosText E1).take 31
              match abAppend ab5 buf (buf.length : Int) with
              | .error e => .error e
              | .ok ab6 =>
                match abAppend ab6 SHOW_CURSOR 6 with
                | .ok ab7 => .ok (E1, ab7)
                | .error e => .error e

/-! ## Auxiliary definitions used in the statements and proofs -/

/-- The bytes that `editorUpdateRow` writes for one byte of `chars` when the
write index is `idx`. -/
def renderByte (idx : Nat) (ch : Nat) : List Nat :=
  if ch = TAB then ch :: List.replicate (3 - idx % 4) SPACE else [ch]

/-- The row that `editorAppendRow` stores for the bytes `cs`. -/
def loadedRow (cs : List Nat) : erow := editorUpdateRow (freshRow cs)

/-- The length of the row the cursor is on, `0` at the position past the last
row. -/
def cursorRowLen (E : editorConfig) : Int :=
  match rowAt E E.cy with
  | .ok r => r.size
  | .error _ => 0

/-- The cursor invariant: `0 <= cy <= numRows` and `0 <= cx <=` the length of
row `cy` (`0` when `cy = numRows`). -/
def validCursor (E : editorConfig) : Prop :=
  0 ≤ E.cy ∧ E.cy ≤ E.numRows ∧ 0 ≤ E.cx ∧ E.cx ≤ cursorRowLen E

instance (E : editorConfig) : Decidable (validCursor E) := by
  unfold validCursor; infer_instance

/-- A document of the rows `rows` in a 24 x 80 window with the cursor at
`(cx, cy)`. -/
def docState (rows : List (List Nat)) (cx cy : Int) : editorConfig :=
  { initEditor 24 80 with row := rows.map loadedRow, cx := cx, cy := cy }

/-- The render column of the cursor as `editorScroll` computes it (lines
440-443). -/
def cursorRx (E : editorConfig) : Except Fault Int :=
  if E.cy < E.numRows then
    match rowAt E E.cy with
    | .ok r => cxToRx r E.cx
    | .error e => .error e
  else .ok 0

/-- The bytes of the row the cursor is on, none at the position past the last
row. -/
def cursorRowChars (E : editorConfig) : List Nat :=
  match rowAt E E.cy with
  | .ok r => r.chars
  | .error _ => []

/-- The byte sequences that `editorReadKey` recognises after an escape byte:
`[A` `[B` `[C` `[D` `[F` `[H` `OF` `OH` and `[1~` `[3~` `[4~` `[5~` `[6~` `[7~`
`[8~`. -/
def recognisedSeqs : List (List Nat) :=
  [[91, 65], [91, 66], [91, 67], [91, 68], [91, 70], [91, 72], [79, 70], [79, 72],
   [91, 49, 126], [91, 51, 126], [91, 52, 126], [91, 53, 126], [91, 54, 126],
   [91, 55, 126], [91, 56, 126]]

/-- The read outcomes `s` begin with the bytes of a recognised sequence. -/
def startsRecognised (s : List ReadResult) : Prop :=
  ∃ q ∈ recognisedSeqs, q.map ReadResult.byte <+: s

instance (s : List ReadResult) : Decidable (startsRecognised s) := by
  unfold startsRecognised; infer_instance

/-- The number of bytes that line 190 allocates for `render`. -/
def renderAlloc (row : erow) : Nat :=
  row.chars.length + countTabs row.chars * (EDITOR_TAB_STOP - 1) + 1

/-! ## The uninitialised write index of `editorUpdateRow` (`main.c` line 192)

Line 192 reads `int idx;`: the write index has no initial value, so a call of
`editorUpdateRow` starts writing at whatever the variable holds.  The
definitions below make that value a parameter `idx0`; `editorUpdateRow` above is
the case `idx0 = 0`. -/

/-- Function `editorUpdateRow` (lines 182-204) entered with the value `idx0` in
`idx`.  The block of line 190 has `renderAlloc row` bytes; the writes go to the
indices from `idx0` up to the terminator at the final index, and a write at an
index outside the block has no defined result.  The cells below `idx0` are
never written and keep the bytes `junk` that `malloc` left in them. -/
def editorUpdateRowFrom (idx0 : Int) (junk : Nat → Nat) (row : erow) : Except Fault erow :=
  if idx0 < 0 then .error .outOfBounds
  else
    let r := updateLoop row.chars idx0.toNat []
    if r.1 + 1 ≤ renderAlloc row then
      .ok { row with render := (List.range idx0.toNat).map junk ++ r.2, rsize := (r.1 : Int) }
    else .error .outOfBounds

/-- Function `editorAppendRow(s, len)` (lines 206-221) when its call of
`editorUpdateRow` is entered with `idx0` in `idx`. -/
def editorAppendRowFrom (idx0 : Int) (junk : Nat → Nat) (E : editorConfig) (s : List Nat)
    (len : Nat) : Except Fault editorConfig :=
  match editorUpdateRowFrom idx0 junk (freshRow (s.take len)) with
  | .ok r => .ok { E with row := E.row ++ [r], dirty := E.dirty + 1 }
  | .error e => .error e

/-- The row part of `editorRowInsertChar(row, at, c)` (lines 224-230) when its
call of `editorUpdateRow` is entered with `idx0` in `idx`. -/
def rowInsertCharFrom (idx0 : Int) (junk : Nat → Nat) (row : erow) (pos : Int) (c : Int) :
    Except Fault erow :=
  let pos := if pos < 0 ∨ pos > row.size then row.size else pos
  editorUpdateRowFrom idx0 junk
    { row with chars := row.chars.take pos.toNat ++ [charOfInt c] ++ row.chars.drop pos.toNat }

/-- Function `editorRowInsertChar(&E.row[i], at, c)` (lines 223-232) when its
call of `editorUpdateRow` is entered with `idx0` in `idx`. -/
def editorRowInsertCharFrom (idx0 : Int) (junk : Nat → Nat) (E : editorConfig) (i : Int)
    (pos : Int) (c : Int) : Except Fault editorConfig :=
  match rowAt E i with
  | .ok r =>
    match rowInsertCharFrom idx0 junk r pos c with
    | .ok r1 => .ok { E with row := E.row.set i.toNat r1, dirty := E.dirty + 1 }
    | .error e => .error e
  | .error e => .error e

/-- Function `editorInsertChar(c)` (lines 236-242) when the call of
`editorUpdateRow` inside `editorAppendRow` is entered with `idxA` in `idx` and
the one inside `editorRowInsertChar` with `idxB`. -/
def editorInsertCharFrom (idxA idxB : Int) (junk : Nat → Nat) (E : editorConfig) (c : Int) :
    Except Fault editorConfig :=
  let appended : Except Fault editorConfig :=
    if E.cy = E.numRows then editorAppendRowFrom idxA junk E [SPACE] 0 else .ok E
  match appended with
  | .ok E1 =>
    match editorRowInsertCharFrom idxB junk E1 E1.cy E1.cx c with
    | .ok E2 => .ok { E2 with cx := E2.cx + 1 }
    | .error e => .error e
  | .error e => .error e

/-- Bytes of a fresh block, all zero: one possible content of the cells that
`editorUpdateRow` does not write. -/
def zeroJunk : Nat → Nat := fun _ => 0

/-- The one-row document `"a"` in a 24 x 80 window, cursor at `(0, 0)`, as a
call of `editorUpdateRow` entered with `idx = 21947` leaves it: the two bytes of
the block of line 190 are unwritten and `rsize` is `21948`. -/
def strayRsizeState : editorConfig :=
  { initEditor 24 80 with row := [{ chars := [97], rsize := 21948, render := [0, 0] }] }

/-! # Theorems -/

/-! ## Lemmas on the render cache -/

theorem padLoop_spec (fuel : Nat) : ∀ (i : Nat) (out : List Nat),
    (4 - i % 4) % 4 ≤ fuel →
    padLoop fuel i out = (i + (4 - i % 4) % 4, out ++ List.replicate ((4 - i % 4) % 4) SPACE) := by
  induction fuel with
  | zero =>
    intro i out h
    have h0 : (4 - i % 4) % 4 = 0 := by omega
    simp [padLoop, h0]
  | succ n ih =>
    intro i out h
    by_cases hi : i % 4 = 0
    · have h0 : (4 - i % 4) % 4 = 0 := by omega
      simp [padLoop, EDITOR_TAB_STOP, hi]
    · have hk : (4 - i % 4) % 4 = (4 - (i + 1) % 4) % 4 + 1 := by omega
      have hle : (4 - (i + 1) % 4) % 4 ≤ n := by omega
      rw [padLoop, if_pos (by simpa [EDITOR_TAB_STOP] using hi), ih (i + 1) _ hle, hk]
      simp [List.replicate_succ]
      omega

theorem padLoop_exit (i : Nat) (out : List Nat) :
    (padLoop EDITOR_TAB_STOP i out).1 % EDITOR_TAB_STOP = 0 := by
  rw [padLoop_spec EDITOR_TAB_STOP i out (by simp only [EDITOR_TAB_STOP]; omega)]
  simp only [EDITOR_TAB_STOP]
  omega

theorem padLoop_tab (idx : Nat) (out : List Nat) :
    padLoop EDITOR_TAB_STOP (idx + 1) out
      = (cxToRxStep idx TAB, out ++ List.replicate (3 - idx % 4) SPACE) := by
  have h := padLoop_spec EDITOR_TAB_STOP (idx + 1) out (by simp only [EDITOR_TAB_STOP]; omega)
  rw [h]
  have h1 : (4 - (idx + 1) % 4) % 4 = 3 - idx % 4 := by omega
  rw [h1]
  simp only [cxToRxStep, EDITOR_TAB_STOP, if_true]
  congr 1
  omega

theorem updateLoop_cons (ch : Nat) (rest : List Nat) (idx : Nat) (out : List Nat) :
    updateLoop (ch :: rest) idx out
      = updateLoop rest (cxToRxStep idx ch) (out ++ renderByte idx ch) := by
  by_cases h : ch = TAB
  · subst h
    simp [updateLoop, padLoop_tab, renderByte]
  · simp [updateLoop, h, renderByte, cxToRxStep]

theorem updateLoop_fst (cs : List Nat) : ∀ (idx : Nat) (out : List Nat),
    (updateLoop cs idx out).1 = cs.foldl cxToRxStep idx := by
  induction cs with
  | nil => intro idx out; simp [updateLoop]
  | cons ch rest ih => intro idx out; rw [updateLoop_cons, ih]; simp

theorem updateLoop_snd (cs : List Nat) : ∀ (idx : Nat) (out : List Nat),
    (updateLoop cs idx out).2 = out ++ (updateLoop cs idx []).2 := by
  induction cs with
  | nil => intro idx out; simp [updateLoop]
  | cons ch rest ih =>
    intro idx out
    rw [updateLoop_cons, updateLoop_cons, ih, ih _ ([] ++ renderByte idx ch)]
    simp

theorem updateLoop_append (a b : List Nat) : ∀ (idx : Nat) (out : List Nat),
    updateLoop (a ++ b) idx out
      = updateLoop b (updateLoop a idx out).1 (updateLoop a idx out).2 := by
  induction a with
  | nil => intro idx out; simp [updateLoop]
  | cons ch rest ih => intro idx out; rw [List.cons_append, updateLoop_cons, updateLoop_cons, ih]

theorem cxToRxStep_ge (idx ch : Nat) :
    cxToRxStep idx ch = idx + (renderByte idx ch).length := by
  by_cases h : ch = TAB
  · simp [cxToRxStep, renderByte, h, EDITOR_TAB_STOP]; omega
  · simp [cxToRxStep, renderByte, h]

theorem updateLoop_length (cs : List Nat) : ∀ (idx : Nat) (out : List Nat),
    (updateLoop cs idx out).1 + out.length = idx + (updateLoop cs idx out).2.length := by
  induction cs with
  | nil => intro idx out; simp [updateLoop]
  | cons ch rest ih =>
    intro idx out
    rw [updateLoop_cons]
    have := ih (cxToRxStep idx ch) (out ++ renderByte idx ch)
    rw [cxToRxStep_ge] at this ⊢
    simp at this
    omega

theorem cxToRxLoop_spec (row : erow) (n : Nat) : ∀ (i rx : Nat),
    i + n ≤ row.chars.length →
    cxToRxLoop row n i rx = .ok (((row.chars.drop i).take n).foldl cxToRxStep rx) := by
  induction n with
  | zero => intro i rx _; simp [cxToRxLoop]
  | succ n ih =>
    intro i rx h
    have hi : i < row.chars.length := by omega
    have hd : row.chars.drop i = row.chars[i] :: row.chars.drop (i + 1) := by
      exact List.drop_eq_getElem_cons hi
    rw [cxToRxLoop, readChar, List.get?_eq_get hi]
    simp only
    rw [ih (i + 1) _ (by omega)]
    conv_rhs => rw [hd, List.take_succ_cons, List.foldl_cons]
    rfl

/-! ## C1: the column mapper agrees with the render cache -/

/-- C1. For every row and every `cx` with `0 <= cx <= row.size`, `cxToRx(row, cx)`
returns the write index (`rsize`) that `editorUpdateRow` reaches on the prefix
`chars[0..cx)`; that index is the length of the prefix's render cache, which is
an initial segment of the row's own render cache, so it is the index at which
character `cx` starts.  In particular `cxToRx(row, row.size)` is `row.rsize`
after `editorUpdateRow`. -/
theorem cxToRx_eq_render_index (row : erow) (cx : Int)
    (h0 : 0 ≤ cx) (h1 : cx ≤ row.size) :
    cxToRx row cx = .ok (editorUpdateRow (freshRow (row.chars.take cx.toNat))).rsize
    ∧ (editorUpdateRow (freshRow (row.chars.take cx.toNat))).rsize
        = ((editorUpdateRow (freshRow (row.chars.take cx.toNat))).render.length : Int)
    ∧ (editorUpdateRow (freshRow (row.chars.take cx.toNat))).render
        <+: (editorUpdateRow row).render
    ∧ cxToRx (editorUpdateRow row) (editorUpdateRow row).size
        = .ok (editorUpdateRow row).rsize := by
  have hlen : cx.toNat ≤ row.chars.length := by
    simp only [erow.size] at h1; omega
  refine ⟨?_, ?_, ?_, ?_⟩
  · simp only [cxToRx, editorUpdateRow, freshRow]
    rw [cxToRxLoop_spec row cx.toNat 0 0 (by omega), updateLoop_fst]
    simp
  · simp only [editorUpdateRow, freshRow]
    have := updateLoop_length (row.chars.take cx.toNat) 0 []
    simp at this
    exact_mod_cast this
  · simp only [editorUpdateRow, freshRow]
    have hsplit : row.chars = row.chars.take cx.toNat ++ row.chars.drop cx.toNat :=
      (List.take_append_drop _ _).symm
    conv_rhs => rw [hsplit, updateLoop_append, updateLoop_snd]
    exact List.prefix_append _ _
  · simp only [cxToRx, editorUpdateRow, erow.size, Int.toNat_ofNat]
    rw [cxToRxLoop_spec _ _ 0 0 (by simp), updateLoop_fst]
    simp

/-- C1 at the row `"\tx"` and `cx = 1`. -/
theorem cxToRx_eq_render_index_witness :
    cxToRx (freshRow [9, 120]) 1
        = .ok (editorUpdateRow (freshRow ((freshRow [9, 120]).chars.take (1 : Int).toNat))).rsize
    ∧ (editorUpdateRow (freshRow ((freshRow [9, 120]).chars.take (1 : Int).toNat))).rsize
        = ((editorUpdateRow (freshRow ((freshRow [9, 120]).chars.take (1 : Int).toNat))).render.length : Int)
    ∧ (editorUpdateRow (freshRow ((freshRow [9, 120]).chars.take (1 : Int).toNat))).render
        <+: (editorUpdateRow (freshRow [9, 120])).render
    ∧ cxToRx (editorUpdateRow (freshRow [9, 120])) (editorUpdateRow (freshRow [9, 120])).size
        = .ok (editorUpdateRow (freshRow [9, 120])).rsize :=
  cxToRx_eq_render_index (freshRow [9, 120]) 1 (by decide) (by decide)

/-! ## C2: tab expansion -/

/-- C2, the code at the row `"\tx"`: `editorUpdateRow` keeps the tab byte in the
render cache and pads it with three spaces, so the cache is tab, three spaces,
`x` and not four spaces and `x`; `rsize` is `5` and `cxToRx` at `cx = 1` is `4`. -/
theorem editorUpdateRow_keeps_tab :
    (editorUpdateRow (freshRow [TAB, 120])).render = [TAB, SPACE, SPACE, SPACE, 120]
    ∧ (editorUpdateRow (freshRow [TAB, 120])).render ≠ [SPACE, SPACE, SPACE, SPACE, 120]
    ∧ TAB ∈ (editorUpdateRow (freshRow [TAB, 120])).render
    ∧ (editorUpdateRow (freshRow [TAB, 120])).rsize = 5
    ∧ cxToRx (editorUpdateRow (freshRow [TAB, 120])) 1 = .ok 4 := by
  refine ⟨by decide, by decide, by decide, by decide, rfl⟩

/-! ## Lemmas on loading and serialising -/

theorem copyLoop_spec (rows : List erow) : ∀ (buf : List Nat),
    copyLoop rows buf = buf ++ (rows.map (fun r => r.chars ++ [NL])).flatten := by
  induction rows with
  | nil => intro buf; simp [copyLoop]
  | cons r rest ih => intro buf; rw [copyLoop, ih]; simp

theorem totlenLoop_spec (rows : List erow) : ∀ (totlen : Int),
    totlenLoop rows totlen = totlen + (rows.map (fun r => r.size + 1)).sum := by
  induction rows with
  | nil => intro t; simp [totlenLoop]
  | cons r rest ih => intro t; rw [totlenLoop, ih]; simp; ring

/-- C4. For every document `editorRowsToString` returns the concatenation, in
row order, of each row's `chars` followed by one newline; `*buflen` is the sum
over the rows of `size + 1`, which is the length of that buffer; the state is
left as it was; and for an empty document the length is `0`. -/
theorem editorRowsToString_spec (E : editorConfig) :
    (editorRowsToString E).1 = E
    ∧ (editorRowsToString E).2.1 = (E.row.map (fun r => r.chars ++ [NL])).flatten
    ∧ (editorRowsToString E).2.2 = (E.row.map (fun r => r.size + 1)).sum
    ∧ (((editorRowsToString E).2.1.length : Nat) : Int) = (editorRowsToString E).2.2
    ∧ (editorRowsToString { E with row := [] }).2.2 = 0
    ∧ (editorRowsToString { E with row := [] }).2.1 = [] := by
  refine ⟨rfl, ?_, ?_, ?_, rfl, rfl⟩
  · simp [editorRowsToString, copyLoop_spec]
  · simp [editorRowsToString, totlenLoop_spec]
  · simp only [editorRowsToString, copyLoop_spec, totlenLoop_spec, List.nil_append, zero_add]
    induction E.row with
    | nil => simp
    | cons r rest ih =>
      simp only [List.map_cons, List.flatten_cons, List.length_append, List.sum_cons,
        Nat.cast_add, ih, erow.size]
      simp

/-! ## Lemmas on reading rows -/

theorem rowAt_ok (E : editorConfig) (i : Int) (h0 : 0 ≤ i) (h1 : i < E.numRows) :
    ∃ r, rowAt E i = .ok r ∧ E.row.get? i.toNat = some r := by
  have hlt : i.toNat < E.row.length := by
    simp only [editorConfig.numRows] at h1; omega
  refine ⟨E.row.get ⟨i.toNat, hlt⟩, ?_, List.get?_eq_get hlt⟩
  simp [rowAt, h0, List.getElem?_eq_getElem hlt]

theorem cxToRx_ok (r : erow) (cx : Int) (h1 : cx ≤ r.size) :
    ∃ rx, cxToRx r cx = .ok rx ∧ 0 ≤ rx := by
  have hlen : cx.toNat ≤ r.chars.length := by
    simp only [erow.size] at h1; omega
  refine ⟨((((r.chars.drop 0).take cx.toNat).foldl cxToRxStep 0 : Nat) : Int), ?_, ?_⟩
  · simp only [cxToRx]
    rw [cxToRxLoop_spec r cx.toNat 0 0 (by omega)]
  · exact Int.natCast_nonneg _

theorem rowAt_nonneg (E : editorConfig) (i : Int) (r : erow) (h : rowAt E i = .ok r) :
    0 ≤ i ∧ E.row.get? i.toNat = some r := by
  unfold rowAt at h
  split_ifs at h with h0
  refine ⟨h0, ?_⟩
  cases hg : E.row.get? i.toNat with
  | none => rw [hg] at h; cases h
  | some r2 => rw [hg] at h; cases h; rfl

theorem rowAt_set_same (E : editorConfig) (i : Int) (r r2 : erow) (d : Int)
    (h : rowAt E i = .ok r) :
    rowAt { E with row := E.row.set i.toNat r2, dirty := d } i = .ok r2 := by
  obtain ⟨h0, hg⟩ := rowAt_nonneg E i r h
  have hlt : i.toNat < E.row.length := by
    rcases List.get?_eq_some.mp hg with ⟨hl, _⟩; exact hl
  simp [rowAt, h0, List.getElem?_set, hlt]

theorem rowAt_set_other (E : editorConfig) (i j : Int) (r2 : erow) (d : Int)
    (h0 : 0 ≤ i) (hne : j ≠ i) :
    rowAt { E with row := E.row.set i.toNat r2, dirty := d } j = rowAt E j := by
  unfold rowAt
  by_cases hj : 0 ≤ j
  · have hn : i.toNat ≠ j.toNat := by omega
    simp only [hj, if_true, List.get?_eq_getElem?]
    rw [List.getElem?_set_ne hn]
  · simp [hj]

theorem rowAt_congr (E1 E2 : editorConfig) (i : Int) (h : E1.row = E2.row) :
    rowAt E1 i = rowAt E2 i := by
  simp [rowAt, h]

theorem rowInsertChar_chars (r : erow) (pos c : Int) (h0 : 0 ≤ pos) (h1 : pos ≤ r.size) :
    (rowInsertChar r pos c).chars
      = r.chars.take pos.toNat ++ [charOfInt c] ++ r.chars.drop pos.toNat := by
  have : ¬ (pos < 0 ∨ pos > r.size) := by omega
  simp [rowInsertChar, this, editorUpdateRow]

theorem rowInsertChar_end (r : erow) (pos c : Int) (h : pos < 0 ∨ pos > r.size) :
    (rowInsertChar r pos c).chars = r.chars ++ [charOfInt c] := by
  have h2 : pos < 0 ∨ (r.chars.length : Int) < pos := h
  simp [rowInsertChar, editorUpdateRow, erow.size, h2]

/-! ## C5: the cursor invariant under key handling -/

/-- C5, the code at a failing input: one row `"a"`, cursor at `(cx, cy) = (1, 0)`,
key `ARROW_UP`.  The cursor is valid, the `switch` of `editorMoveCursor`
decrements `cy` to `-1` because line 357 tests `E.cx != 0`, and line 367 then
reads `E.row[-1]`, so the key leaves no state with `0 <= cy`. -/
theorem arrow_up_leaves_document :
    validCursor (docState [[97]] 1 0)
    ∧ editorMoveCursorSwitch (docState [[97]] 1 0) ARROW_UP = .ok (docState [[97]] 1 (-1))
    ∧ ¬ validCursor (docState [[97]] 1 (-1))
    ∧ editorProcessKey (docState [[97]] 1 0) ARROW_UP true = .error .outOfBounds := by
  refine ⟨by decide, rfl, by decide, rfl⟩

/-! ## C6: the viewport contains the cursor after `editorScroll` -/

/-- C6. For every state with `screenRows >= 1`, `screenCols >= 1` and a valid
cursor, `editorScroll` returns a state with `rowOff <= cy < rowOff + screenRows`
and `colOff <= rx < colOff + screenCols`, where `rx` is `cxToRx(row cy, cx)` when
`cy < numRows` and `0` otherwise; cursor, rows and screen size are unchanged. -/
theorem editorScroll_contains_cursor (E : editorConfig)
    (hr : 1 ≤ E.screenRows) (hc : 1 ≤ E.screenCols) (hv : validCursor E) :
    ∃ E1, editorScroll E = .ok E1
      ∧ E1.rowOff ≤ E1.cy ∧ E1.cy < E1.rowOff + E1.screenRows
      ∧ E1.colOff ≤ E1.rx ∧ E1.rx < E1.colOff + E1.screenCols
      ∧ cursorRx E = .ok E1.rx
      ∧ E1.cx = E.cx ∧ E1.cy = E.cy ∧ E1.row = E.row
      ∧ E1.screenRows = E.screenRows ∧ E1.screenCols = E.screenCols := by
  obtain ⟨hcy0, hcy1, hcx0, hcx1⟩ := hv
  by_cases hlt : E.cy < E.numRows
  · obtain ⟨r, hr1, _⟩ := rowAt_ok E E.cy hcy0 hlt
    have hsz : E.cx ≤ r.size := by simpa [cursorRowLen, hr1] using hcx1
    obtain ⟨rx, hrx, _⟩ := cxToRx_ok r E.cx hsz
    have hlt2 : E.cy < ({ E with rx := 0 } : editorConfig).numRows := hlt
    have hr2 : rowAt ({ E with rx := 0 } : editorConfig) E.cy = .ok r := hr1
    simp only [editorScroll, cursorRx, hlt, hlt2, if_true, hr1, hr2, hrx]
    refine ⟨_, rfl, ?_⟩
    split_ifs <;> simp_all <;> omega
  · have hlt2 : ¬ E.cy < ({ E with rx := 0 } : editorConfig).numRows := hlt
    simp only [editorScroll, cursorRx, hlt, hlt2, if_false]
    refine ⟨_, rfl, ?_⟩
    split_ifs <;> simp_all <;> omega

/-- C6 at the one-row document `"\tx"` with the cursor at `(1, 0)`. -/
theorem editorScroll_contains_cursor_witness :
    1 ≤ (docState [[9, 120]] 1 0).screenRows
    ∧ 1 ≤ (docState [[9, 120]] 1 0).screenCols
    ∧ validCursor (docState [[9, 120]] 1 0)
    ∧ ∃ E1, editorScroll (docState [[9, 120]] 1 0) = .ok E1
      ∧ E1.rowOff ≤ E1.cy ∧ E1.cy < E1.rowOff + E1.screenRows
      ∧ E1.colOff ≤ E1.rx ∧ E1.rx < E1.colOff + E1.screenCols
      ∧ cursorRx (docState [[9, 120]] 1 0) = .ok E1.rx
      ∧ E1.cx = (docState [[9, 120]] 1 0).cx ∧ E1.cy = (docState [[9, 120]] 1 0).cy
      ∧ E1.row = (docState [[9, 120]] 1 0).row
      ∧ E1.screenRows = (docState [[9, 120]] 1 0).screenRows
      ∧ E1.screenCols = (docState [[9, 120]] 1 0).screenCols :=
  ⟨by decide, by decide, by decide,
   editorScroll_contains_cursor (docState [[9, 120]] 1 0) (by decide) (by decide) (by decide)⟩

/-! ## C7: the escape-sequence table -/

/-- C7. On every input that starts with the escape byte followed by the bytes
of a listed sequence, `editorReadKey` returns the one key of the table and
leaves exactly the outcomes after the sequence unread: `ESC [ A/B/C/D` give
up/down/right/left, `ESC [ H` and `ESC O H` give home, `ESC [ F` and `ESC O F`
give end, `ESC [ 1 ~` and `ESC [ 7 ~` give home, `ESC [ 3 ~` gives delete,
`ESC [ 4 ~` and `ESC [ 8 ~` give end, `ESC [ 5 ~` gives page up and `ESC [ 6 ~`
gives page down. -/
theorem editorReadKey_table (rest : List ReadResult) :
    editorReadKey (.byte ESC :: .byte 91 :: .byte 65 :: rest) = .key ARROW_UP rest
    ∧ editorReadKey (.byte ESC :: .byte 91 :: .byte 66 :: rest) = .key ARROW_DOWN rest
    ∧ editorReadKey (.byte ESC :: .byte 91 :: .byte 67 :: rest) = .key ARROW_RIGHT rest
    ∧ editorReadKey (.byte ESC :: .byte 91 :: .byte 68 :: rest) = .key ARROW_LEFT rest
    ∧ editorReadKey (.byte ESC :: .byte 91 :: .byte 72 :: rest) = .key HOME_KEY rest
    ∧ editorReadKey (.byte ESC :: .byte 79 :: .byte 72 :: rest) = .key HOME_KEY rest
    ∧ editorReadKey (.byte ESC :: .byte 91 :: .byte 70 :: rest) = .key END_KEY rest
    ∧ editorReadKey (.byte ESC :: .byte 79 :: .byte 70 :: rest) = .key END_KEY rest
    ∧ editorReadKey (.byte ESC :: .byte 91 :: .byte 49 :: .byte 126 :: rest) = .key HOME_KEY rest
    ∧ editorReadKey (.byte ESC :: .byte 91 :: .byte 55 :: .byte 126 :: rest) = .key HOME_KEY rest
    ∧ editorReadKey (.byte ESC :: .byte 91 :: .byte 51 :: .byte 126 :: rest) = .key DEL_KEY rest
    ∧ editorReadKey (.byte ESC :: .byte 91 :: .byte 52 :: .byte 126 :: rest) = .key END_KEY rest
    ∧ editorReadKey (.byte ESC :: .byte 91 :: .byte 56 :: .byte 126 :: rest) = .key END_KEY rest
    ∧ editorReadKey (.byte ESC :: .byte 91 :: .byte 53 :: .byte 126 :: rest) = .key PAGE_UP rest
    ∧ editorReadKey (.byte ESC :: .byte 91 :: .byte 54 :: .byte 126 :: rest) = .key PAGE_DOWN rest := by
  refine ⟨rfl, rfl, rfl, rfl, rfl, rfl, rfl, rfl, rfl, rfl, rfl, rfl, rfl, rfl, rfl⟩

/-! ## C8: unrecognised escape sequences give a bare escape -/

theorem startsRecognised_two (a b : Nat) (s : List ReadResult) (h : [a, b] ∈ recognisedSeqs) :
    startsRecognised (.byte a :: .byte b :: s) :=
  ⟨[a, b], h, by simp⟩

theorem startsRecognised_three (a b c : Nat) (s : List ReadResult)
    (h : [a, b, c] ∈ recognisedSeqs) :
    startsRecognised (.byte a :: .byte b :: .byte c :: s) :=
  ⟨[a, b, c], h, by simp⟩

theorem bracketKey_esc (b : Nat) (s : List ReadResult)
    (h : ¬ startsRecognised (.byte 91 :: .byte b :: s)) : bracketKey b = (ESC : Int) := by
  unfold bracketKey
  split_ifs with h1 h2 h3 h4 h5 h6
  all_goals first
    | rfl
    | (exfalso; apply h; subst_vars; exact startsRecognised_two _ _ _ (by decide))

theorem oKey_esc (b : Nat) (s : List ReadResult)
    (h : ¬ startsRecognised (.byte 79 :: .byte b :: s)) : oKey b = (ESC : Int) := by
  unfold oKey
  split_ifs with h1 h2
  all_goals first
    | rfl
    | (exfalso; apply h; subst_vars; exact startsRecognised_two _ _ _ (by decide))

theorem tildeKey_esc (b : Nat) (s : List ReadResult)
    (h : ¬ startsRecognised (.byte 91 :: .byte b :: .byte 126 :: s)) :
    tildeKey b = (ESC : Int) := by
  unfold tildeKey
  split_ifs with h1 h2 h3 h4 h5 h6 h7
  all_goals first
    | rfl
    | (exfalso; apply h; subst_vars; exact startsRecognised_three _ _ _ _ (by decide))

/-- C8. When the read outcomes after an escape byte do not begin with a
recognised sequence (a follow-up read that brings no byte included),
`editorReadKey` returns the bare escape key after one, two or three further
reads; it neither returns another key nor ends the process nor blocks. -/
theorem editorReadKey_fail_open (s : List ReadResult) (h : ¬ startsRecognised s) :
    ∃ n, 1 ≤ n ∧ n ≤ 3 ∧ editorReadKey (.byte ESC :: s) = .key (ESC : Int) (s.drop n) := by
  have hstart : editorReadKey (.byte ESC :: s) = readEscape s := by simp [editorReadKey]
  rw [hstart]
  match s, h with
  | [], _ => exact ⟨1, by omega, by omega, rfl⟩
  | .timeout :: s1, _ => exact ⟨1, by omega, by omega, rfl⟩
  | .eagain :: s1, _ => exact ⟨1, by omega, by omega, rfl⟩
  | .error :: s1, _ => exact ⟨1, by omega, by omega, rfl⟩
  | [.byte b0], _ => exact ⟨2, by omega, by omega, rfl⟩
  | .byte b0 :: .timeout :: s2, _ => exact ⟨2, by omega, by omega, rfl⟩
  | .byte b0 :: .eagain :: s2, _ => exact ⟨2, by omega, by omega, rfl⟩
  | .byte b0 :: .error :: s2, _ => exact ⟨2, by omega, by omega, rfl⟩
  | .byte b0 :: .byte b1 :: s2, h =>
    by_cases h91 : b0 = 91
    · subst h91
      by_cases hd : 48 ≤ b1 ∧ b1 ≤ 57
      · match s2, h with
        | [], _ => exact ⟨3, by omega, by omega, by simp [readEscape, readSeq, hd]⟩
        | .timeout :: s3, _ => exact ⟨3, by omega, by omega, by simp [readEscape, readSeq, hd]⟩
        | .eagain :: s3, _ => exact ⟨3, by omega, by omega, by simp [readEscape, readSeq, hd]⟩
        | .error :: s3, _ => exact ⟨3, by omega, by omega, by simp [readEscape, readSeq, hd]⟩
        | .byte b2 :: s3, h =>
          refine ⟨3, by omega, by omega, ?_⟩
          by_cases h126 : b2 = 126
          · subst h126
            simp [readEscape, readSeq, hd, tildeKey_esc b1 s3 h]
          · simp [readEscape, readSeq, hd, h126]
      · refine ⟨2, by omega, by omega, ?_⟩
        simp [readEscape, readSeq, hd, bracketKey_esc b1 s2 h]
    · refine ⟨2, by omega, by omega, ?_⟩
      by_cases h79 : b0 = 79
      · subst h79
        simp [readEscape, readSeq, oKey_esc b1 s2 h]
      · simp [readEscape, readSeq, h91, h79]

/-- C8 at `ESC [ 3` followed by a read that times out. -/
theorem editorReadKey_fail_open_witness :
    ¬ startsRecognised [.byte 91, .byte 51, .timeout, .byte 120]
    ∧ ∃ n, 1 ≤ n ∧ n ≤ 3
      ∧ editorReadKey (.byte ESC :: [.byte 91, .byte 51, .timeout, .byte 120])
          = .key (ESC : Int) ([ReadResult.byte 91, .byte 51, .timeout, .byte 120].drop n) :=
  ⟨by decide, editorReadKey_fail_open [.byte 91, .byte 51, .timeout, .byte 120] (by decide)⟩

/-! ## C9: character insertion -/

/-- Character insertion as far as it concerns `chars` and the cursor, which the
write index of `editorUpdateRow` has no part in.  For every state with a valid
cursor and every `c`, `editorInsertChar(c)` leaves `cy`, raises `cx` by one and
puts the byte of `c` at position `cx` of row `cy` (one byte longer); `numRows`
is unchanged when `cy < numRows` and one larger when `cy = numRows`, where the new
row holds the single byte; every other row is unchanged.  `editorRowInsertChar`
with `at < 0` or `at > size` puts the byte at the end of the row.  The byte of
`c` is `c` itself for `0 <= c < 256`. -/
theorem editorInsertChar_chars (E : editorConfig) (c : Int) (hv : validCursor E) :
    ∃ E1 r1, editorInsertChar E c = .ok E1
      ∧ E1.cy = E.cy ∧ E1.cx = E.cx + 1
      ∧ E1.numRows = (if E.cy = E.numRows then E.numRows + 1 else E.numRows)
      ∧ rowAt E1 E.cy = .ok r1
      ∧ r1.chars = (cursorRowChars E).take E.cx.toNat ++ [charOfInt c]
                    ++ (cursorRowChars E).drop E.cx.toNat
      ∧ r1.size = cursorRowLen E + 1
      ∧ (if E.cy = E.numRows then r1.chars = [charOfInt c] else True)
      ∧ (∀ i, i ≠ E.cy → rowAt E1 i = rowAt E i)
      ∧ (∀ (i pos : Int) (r : erow), rowAt E i = .ok r → (pos < 0 ∨ pos > r.size) →
          ∃ E2 r2, editorRowInsertChar E i pos c = .ok E2 ∧ rowAt E2 i = .ok r2
            ∧ r2.chars = r.chars ++ [charOfInt c])
      ∧ (∀ b : Nat, b < 256 → charOfInt (b : Int) = b) := by
  obtain ⟨hcy0, hcy1, hcx0, hcx1⟩ := hv
  have hlast : ∀ (i pos : Int) (r : erow), rowAt E i = .ok r → (pos < 0 ∨ pos > r.size) →
      ∃ E2 r2, editorRowInsertChar E i pos c = .ok E2 ∧ rowAt E2 i = .ok r2
        ∧ r2.chars = r.chars ++ [charOfInt c] := by
    intro i pos r hr hpos
    refine ⟨{ E with row := E.row.set i.toNat (rowInsertChar r pos c), dirty := E.dirty + 1 },
      rowInsertChar r pos c, by simp only [editorRowInsertChar, hr], ?_, ?_⟩
    · exact rowAt_set_same E i r _ _ hr
    · exact rowInsertChar_end r pos c hpos
  have hbyte : ∀ b : Nat, b < 256 → charOfInt (b : Int) = b := by
    intro b hb
    simp only [charOfInt]
    omega
  by_cases hlt : E.cy < E.numRows
  · obtain ⟨r, hr1, _⟩ := rowAt_ok E E.cy hcy0 hlt
    have hne : E.cy ≠ E.numRows := by omega
    have hsz : E.cx ≤ r.size := by simpa [cursorRowLen, hr1] using hcx1
    refine ⟨{ E with row := E.row.set E.cy.toNat (rowInsertChar r E.cx c),
                     dirty := E.dirty + 1, cx := E.cx + 1 },
      rowInsertChar r E.cx c, ?_, ?_, ?_, ?_, ?_, ?_, ?_, ?_, ?_, hlast, hbyte⟩
    · simp only [editorInsertChar, hne, if_false, editorRowInsertChar, hr1]
    · rfl
    · rfl
    · rw [if_neg hne]; simp [editorConfig.numRows]
    · exact (rowAt_congr _ _ _ rfl).trans (rowAt_set_same E E.cy r _ (E.dirty + 1) hr1)
    · simp only [cursorRowChars, hr1]
      exact rowInsertChar_chars r E.cx c hcx0 hsz
    · simp only [cursorRowLen, hr1, erow.size, rowInsertChar_chars r E.cx c hcx0 hsz]
      simp only [erow.size] at hsz
      simp
      omega
    · simp [hne]
    · intro i hi
      exact (rowAt_congr _ _ _ rfl).trans
        (rowAt_set_other E E.cy i (rowInsertChar r E.cx c) (E.dirty + 1) hcy0 hi)
  · have heq : E.cy = E.numRows := by omega
    have hnone : rowAt E E.cy = .error .outOfBounds := by
      have : E.row[E.cy.toNat]? = none := by
        apply List.getElem?_eq_none
        simp only [editorConfig.numRows] at heq; omega
      simp [rowAt, hcy0, this]
    have hcx : E.cx = 0 := by
      simp only [cursorRowLen, hnone] at hcx1; omega
    have hnew : rowAt (editorAppendRow E [SPACE] 0) E.cy = .ok (loadedRow []) := by
      have hidx : E.cy.toNat = E.row.length := by
        simp only [editorConfig.numRows] at heq; omega
      simp [rowAt, hcy0, editorAppendRow, hidx, loadedRow]
    refine ⟨{ editorAppendRow E [SPACE] 0 with
                row := (editorAppendRow E [SPACE] 0).row.set E.cy.toNat
                         (rowInsertChar (loadedRow []) E.cx c),
                dirty := (editorAppendRow E [SPACE] 0).dirty + 1, cx := E.cx + 1 },
      rowInsertChar (loadedRow []) E.cx c, ?_, ?_, ?_, ?_, ?_, ?_, ?_, ?_, ?_,
      hlast, hbyte⟩
    · simp only [editorInsertChar, heq, if_true]
      have h1 : (editorAppendRow E [SPACE] 0).cy = E.cy := rfl
      have h2 : (editorAppendRow E [SPACE] 0).cx = E.cx := rfl
      rw [h1, h2, ← heq]
      simp only [editorRowInsertChar, hnew]
      rfl
    · rfl
    · rfl
    · rw [if_pos heq]; simp [editorConfig.numRows, editorAppendRow]
    · exact (rowAt_congr _ _ _ rfl).trans
        (rowAt_set_same (editorAppendRow E [SPACE] 0) E.cy _ _
          ((editorAppendRow E [SPACE] 0).dirty + 1) hnew)
    · simp [cursorRowChars, hnone, hcx, rowInsertChar, loadedRow, editorUpdateRow, freshRow,
        erow.size]
    · simp [cursorRowLen, hnone, hcx, rowInsertChar, loadedRow, editorUpdateRow, freshRow,
        erow.size]
    · simp [heq, hcx, rowInsertChar, loadedRow, editorUpdateRow, freshRow, erow.size]
    · intro i hi
      refine Eq.trans ((rowAt_congr _ _ _ rfl).trans
        (rowAt_set_other (editorAppendRow E [SPACE] 0) E.cy i
          (rowInsertChar (loadedRow []) E.cx c) ((editorAppendRow E [SPACE] 0).dirty + 1) hcy0 hi)) ?_
      unfold rowAt
      by_cases hi0 : 0 ≤ i
      · have hidx : i.toNat ≠ E.row.length := by
          simp only [editorConfig.numRows] at heq; omega
        simp only [hi0, if_true, editorAppendRow, List.get?_eq_getElem?]
        by_cases hil : i.toNat < E.row.length
        · rw [List.getElem?_append_left hil]
        · have h3 : E.row.length + 1 ≤ i.toNat := by omega
          rw [List.getElem?_eq_none (by simpa using h3), List.getElem?_eq_none (by omega)]
      · simp [hi0]

/-- C9, the code at a failing input: the one-row document `"\t"`, cursor at
`(1, 0)`, `c = 'x'`, where the call of `editorUpdateRow` inside
`editorRowInsertChar` finds `1` in its uninitialised `idx`.  The cursor is valid
and row `0` gets the bytes `"\tx"`, as the claim says; but the cache is written
from index `1` on (cell `0` unwritten, the tab at index `1`), so it is not the
cache rebuilt from the new content, which has a space at index `1`.  With
`32767` in `idx` (row `"ab"`) the writes leave the block of line 190. -/
theorem insert_char_cache_follows_stray_index :
    validCursor (docState [[9]] 1 0)
    ∧ (∃ E1 r1, editorInsertCharFrom 0 1 zeroJunk (docState [[9]] 1 0) 120 = .ok E1
        ∧ E1.cx = 2 ∧ E1.cy = 0
        ∧ rowAt E1 0 = .ok r1
        ∧ r1.chars = [9, 120]
        ∧ r1.render = [0, 9, 32, 32, 120]
        ∧ (editorUpdateRow (freshRow r1.chars)).render = [9, 32, 32, 32, 120]
        ∧ r1.render.get? 1 = some TAB
        ∧ (editorUpdateRow (freshRow r1.chars)).render.get? 1 = some SPACE
        ∧ r1.render ≠ (editorUpdateRow (freshRow r1.chars)).render)
    ∧ validCursor (docState [[97, 98]] 1 0)
    ∧ editorInsertCharFrom 0 32767 zeroJunk (docState [[97, 98]] 1 0) 120
        = .error .outOfBounds := by
  refine ⟨by decide, ⟨_, _, rfl, rfl, rfl, rfl, rfl, rfl, rfl, rfl, rfl, by decide⟩,
    by decide, rfl⟩

/-! ## C10: the page keys -/

/-- C10, the code at a failing input: rows `""`, `"a"`, `"a"`, cursor at
`(cx, cy) = (1, 1)`, `rowOff = 0`, `screenRows = 22`, key `PAGE_DOWN`.  The cursor
is valid and inside the viewport; line 416 passes `ARROW_UP` whatever the key, so
after the jump to row 3 the cursor walks up and ends on row `0`, above where it
started. -/
theorem page_down_moves_up :
    validCursor (docState [[], [97], [97]] 1 1)
    ∧ (docState [[], [97], [97]] 1 1).rowOff ≤ (docState [[], [97], [97]] 1 1).cy
    ∧ (docState [[], [97], [97]] 1 1).cy
        < (docState [[], [97], [97]] 1 1).rowOff + (docState [[], [97], [97]] 1 1).screenRows
    ∧ pageMoveKey = ARROW_UP
    ∧ editorProcessKey (docState [[], [97], [97]] 1 1) PAGE_DOWN true
        = .ok (docState [[], [97], [97]] 0 0)
    ∧ (docState [[], [97], [97]] 0 0).cy < (docState [[], [97], [97]] 1 1).cy := by
  refine ⟨by decide, by decide, by decide, rfl, rfl, by decide⟩

/-! ## Lemmas on cursor movement -/

theorem rowAt_past (E : editorConfig) (i : Int) (h : E.numRows ≤ i) :
    rowAt E i = .error .outOfBounds := by
  unfold rowAt
  by_cases h0 : 0 ≤ i
  · have : E.row[i.toNat]? = none := by
      apply List.getElem?_eq_none
      simp only [editorConfig.numRows] at h; omega
    simp [h0, this]
  · simp [h0]

theorem cursorRowLen_nonneg (E : editorConfig) : 0 ≤ cursorRowLen E := by
  unfold cursorRowLen
  split
  · simp [erow.size]
  · exact le_refl 0

theorem clampCx_ok (E : editorConfig) (h0 : 0 ≤ E.cy) :
    clampCx E = .ok (if E.cx > cursorRowLen E then { E with cx := cursorRowLen E } else E) := by
  by_cases hlt : E.cy < E.numRows
  · obtain ⟨r, hr, _⟩ := rowAt_ok E E.cy h0 hlt
    have hp : rowPtr E = some E.cy := by simp [rowPtr, hlt]
    simp only [clampCx, hp, hr, cursorRowLen]
  · have hp : rowPtr E = none := by
      have : E.cy ≥ E.numRows := by omega
      simp [rowPtr, this]
    have hr : rowAt E E.cy = .error .outOfBounds := rowAt_past E E.cy (by omega)
    simp only [clampCx, hp, cursorRowLen, hr]

theorem arrow_left_ok (E : editorConfig) (hv : validCursor E) :
    editorMoveCursor E ARROW_LEFT = .ok
      (if E.cx ≠ 0 then { E with cx := E.cx - 1 }
       else if E.cy > 0 then
         { E with cy := E.cy - 1, cx := cursorRowLen { E with cy := E.cy - 1 } }
       else E) := by
  obtain ⟨hcy0, hcy1, hcx0, hcx1⟩ := hv
  by_cases hcx : E.cx ≠ 0
  · have hsw : editorMoveCursorSwitch E ARROW_LEFT = .ok { E with cx := E.cx - 1 } := by
      simp [editorMoveCursorSwitch, hcx]
    have hlen : cursorRowLen { E with cx := E.cx - 1 } = cursorRowLen E := rfl
    have hnot : ¬ (E.cx - 1 > cursorRowLen E) := by omega
    rw [if_pos hcx]
    simp only [editorMoveCursor, hsw, clampCx_ok { E with cx := E.cx - 1 } hcy0, hlen]
    rw [if_neg hnot]
  · have hcx' : E.cx = 0 := by simpa using hcx
    by_cases hcy : E.cy > 0
    · obtain ⟨r, hr, _⟩ := rowAt_ok E (E.cy - 1) (by omega) (by omega)
      have hr2 : rowAt { E with cy := E.cy - 1 } (E.cy - 1) = .ok r := hr
      have hlen : cursorRowLen { E with cy := E.cy - 1 } = r.size := by
        simp only [cursorRowLen, hr2]
      have hsw : editorMoveCursorSwitch E ARROW_LEFT
          = .ok { E with cy := E.cy - 1, cx := r.size } := by
        simp [editorMoveCursorSwitch, hcx', hcy, hr]
      have hlen2 : cursorRowLen { E with cy := E.cy - 1, cx := r.size } = r.size := hlen
      have h0 : (0 : Int) ≤ ({ E with cy := E.cy - 1, cx := r.size } : editorConfig).cy := by
        show 0 ≤ E.cy - 1; omega
      rw [if_neg hcx, if_pos hcy, hlen]
      simp only [editorMoveCursor, hsw, clampCx_ok _ h0, hlen2]
      rw [if_neg (lt_irrefl _)]
    · have hsw : editorMoveCursorSwitch E ARROW_LEFT = .ok E := by
        simp [editorMoveCursorSwitch, hcx', hcy]
      have hnot : ¬ (E.cx > cursorRowLen E) := by omega
      rw [if_neg hcx, if_neg hcy]
      simp only [editorMoveCursor, hsw, clampCx_ok E hcy0]
      rw [if_neg hnot]

theorem arrow_right_ok (E : editorConfig) (hv : validCursor E) (hlt : E.cy < E.numRows) :
    editorMoveCursor E ARROW_RIGHT = .ok
      (if E.cx < cursorRowLen E then { E with cx := E.cx + 1 }
       else { E with cy := E.cy + 1, cx := 0 }) := by
  obtain ⟨hcy0, hcy1, hcx0, hcx1⟩ := hv
  obtain ⟨r, hr, _⟩ := rowAt_ok E E.cy hcy0 hlt
  have hlen : cursorRowLen E = r.size := by simp only [cursorRowLen, hr]
  have hp : rowPtr E = some E.cy := by simp [rowPtr, hlt]
  have hne : ARROW_RIGHT ≠ ARROW_LEFT := by decide
  by_cases hc : E.cx < r.size
  · have hsw : editorMoveCursorSwitch E ARROW_RIGHT = .ok { E with cx := E.cx + 1 } := by
      simp [editorMoveCursorSwitch, hne, hp, hr, hc]
    have hlen2 : cursorRowLen { E with cx := E.cx + 1 } = r.size := hlen
    have hnot : ¬ (E.cx + 1 > r.size) := by omega
    rw [hlen, if_pos hc]
    simp only [editorMoveCursor, hsw, clampCx_ok { E with cx := E.cx + 1 } hcy0, hlen2]
    rw [if_neg hnot]
  · have heq : E.cx = r.size := by omega
    have hsw : editorMoveCursorSwitch E ARROW_RIGHT = .ok { E with cy := E.cy + 1, cx := 0 } := by
      simp [editorMoveCursorSwitch, hne, hp, hr, hc, heq]
    have h0 : (0 : Int) ≤ ({ E with cy := E.cy + 1, cx := 0 } : editorConfig).cy := by
      show 0 ≤ E.cy + 1; omega
    have hnn := cursorRowLen_nonneg { E with cy := E.cy + 1, cx := 0 }
    have hnot : ¬ ((0 : Int) > cursorRowLen { E with cy := E.cy + 1, cx := 0 }) := by omega
    rw [hlen, if_neg hc]
    simp only [editorMoveCursor, hsw, clampCx_ok _ h0]
    rw [if_neg hnot]

theorem validCursor_lt_of_cx (E : editorConfig) (hv : validCursor E) (hcx : E.cx ≠ 0) :
    E.cy < E.numRows := by
  obtain ⟨_, _, hcx0, hcx1⟩ := hv
  by_contra hge
  have hr : rowAt E E.cy = .error .outOfBounds := rowAt_past E E.cy (by omega)
  simp only [cursorRowLen, hr] at hcx1
  omega

/-! ## C11: vertical moves -/

/-- C11, the code at a failing input: rows `"a"`, `"b"`, cursor at
`(cx, cy) = (0, 1)`, key `ARROW_UP`.  The cursor is valid and `cy > 0`, yet the
move leaves the cursor on row `1`: line 357 tests `E.cx != 0`, which is false
here.  With `cx = 1` on row `0` the same test lets `cy` go to `-1`. -/
theorem arrow_up_stays_on_row :
    validCursor (docState [[97], [98]] 0 1)
    ∧ (∃ E1, editorMoveCursor (docState [[97], [98]] 0 1) ARROW_UP = .ok E1
        ∧ E1.cy = 1 ∧ E1.cy ≠ (docState [[97], [98]] 0 1).cy - 1)
    ∧ validCursor (docState [[97], [98]] 1 0)
    ∧ editorMoveCursorSwitch (docState [[97], [98]] 1 0) ARROW_UP
        = .ok (docState [[97], [98]] 1 (-1)) := by
  refine ⟨by decide, ⟨docState [[97], [98]] 0 1, rfl, rfl, by decide⟩, by decide, rfl⟩

/-! ## C12: moving left -/

/-- C12. For every state with a valid cursor `editorMoveCursor(ARROW_LEFT)`
returns a state with the same rows, `numRows` and `dirty`; from `cx = 0` and
`0 < cy <= numRows` the cursor goes to row `cy - 1` with `cx` the size of that row;
from `cx > 0` it goes to `(cx - 1, cy)`; at `(0, 0)` it stays.  (A state with
`cx = 0` and `0 < cy <= numRows` has a valid cursor.) -/
theorem arrow_left_spec (E : editorConfig) (hv : validCursor E) :
    ∃ E1, editorMoveCursor E ARROW_LEFT = .ok E1
      ∧ E1.row = E.row ∧ E1.numRows = E.numRows ∧ E1.dirty = E.dirty
      ∧ (E.cx = 0 → 0 < E.cy →
          E1.cy = E.cy - 1 ∧ ∃ r, rowAt E (E.cy - 1) = .ok r ∧ E1.cx = r.size)
      ∧ (0 < E.cx → E1.cx = E.cx - 1 ∧ E1.cy = E.cy)
      ∧ (E.cx = 0 → E.cy = 0 → E1.cx = E.cx ∧ E1.cy = E.cy) := by
  refine ⟨_, arrow_left_ok E hv, ?_, ?_, ?_, ?_, ?_, ?_⟩
  · split_ifs <;> rfl
  · split_ifs <;> rfl
  · split_ifs <;> rfl
  · intro hcx hcy
    have h1 : ¬ E.cx ≠ 0 := by simpa using hcx
    have h2 : E.cy > 0 := hcy
    rw [if_neg h1, if_pos h2]
    obtain ⟨r, hr, _⟩ := rowAt_ok E (E.cy - 1) (by omega) (by have := hv.2.1; omega)
    refine ⟨rfl, r, hr, ?_⟩
    have hr2 : rowAt { E with cy := E.cy - 1 } (E.cy - 1) = .ok r := hr
    show cursorRowLen { E with cy := E.cy - 1 } = r.size
    simp only [cursorRowLen, hr2]
  · intro hcx
    have h1 : E.cx ≠ 0 := by omega
    rw [if_pos h1]
    exact ⟨rfl, rfl⟩
  · intro hcx hcy
    have h1 : ¬ E.cx ≠ 0 := by simpa using hcx
    have h2 : ¬ E.cy > 0 := by omega
    rw [if_neg h1, if_neg h2]
    exact ⟨rfl, rfl⟩

/-- C12 at three rows of sizes 2, 3, 1 with the cursor at `(0, 2)`: the cursor
goes to `(3, 1)`. -/
theorem arrow_left_spec_witness :
    validCursor (docState [[97, 98], [99, 100, 101], [102]] 0 2)
    ∧ ∃ E1, editorMoveCursor (docState [[97, 98], [99, 100, 101], [102]] 0 2) ARROW_LEFT = .ok E1
      ∧ E1.cy = 1 ∧ E1.cx = 3 := by
  obtain ⟨E1, h1, _, _, _, h5, _, _⟩ :=
    arrow_left_spec (docState [[97, 98], [99, 100, 101], [102]] 0 2) (by decide)
  obtain ⟨hcy, r, hr, hcx⟩ := h5 rfl (by decide)
  have hr2 : r = loadedRow [99, 100, 101] := by
    have : rowAt (docState [[97, 98], [99, 100, 101], [102]] 0 2) (2 - 1)
        = .ok (loadedRow [99, 100, 101]) := rfl
    rw [show (docState [[97, 98], [99, 100, 101], [102]] 0 2).cy - 1 = 2 - 1 from rfl] at hr
    rw [this] at hr
    cases hr
    rfl
  refine ⟨by decide, E1, h1, hcy, ?_⟩
  rw [hcx, hr2]
  rfl

/-! ## C20: left and right undo each other -/

/-- C20. For every state with a valid cursor: when the cursor is on a real row
(`cy < numRows`), `ARROW_RIGHT` followed by `ARROW_LEFT` restores `(cx, cy)`; when
the cursor is not at `(0, 0)`, `ARROW_LEFT` followed by `ARROW_RIGHT` restores
`(cx, cy)`. -/
theorem left_right_inverse (E : editorConfig) (hv : validCursor E) :
    (E.cy < E.numRows →
      ∃ E1 E2, editorMoveCursor E ARROW_RIGHT = .ok E1
        ∧ editorMoveCursor E1 ARROW_LEFT = .ok E2 ∧ E2.cx = E.cx ∧ E2.cy = E.cy)
    ∧ (¬ (E.cx = 0 ∧ E.cy = 0) →
      ∃ E1 E2, editorMoveCursor E ARROW_LEFT = .ok E1
        ∧ editorMoveCursor E1 ARROW_RIGHT = .ok E2 ∧ E2.cx = E.cx ∧ E2.cy = E.cy) := by
  have hv' := hv
  obtain ⟨hcy0, hcy1, hcx0, hcx1⟩ := hv
  constructor
  · intro hlt
    obtain ⟨r, hr, _⟩ := rowAt_ok E E.cy hcy0 hlt
    have hlen : cursorRowLen E = r.size := by simp only [cursorRowLen, hr]
    by_cases hc : E.cx < cursorRowLen E
    · have hR : editorMoveCursor E ARROW_RIGHT = .ok { E with cx := E.cx + 1 } := by
        rw [arrow_right_ok E hv' hlt, if_pos hc]
      have hv1 : validCursor { E with cx := E.cx + 1 } := by
        refine ⟨hcy0, hcy1, ?_, ?_⟩
        · show 0 ≤ E.cx + 1; omega
        · show E.cx + 1 ≤ cursorRowLen E; omega
      have hne : ({ E with cx := E.cx + 1 } : editorConfig).cx ≠ 0 := by
        show E.cx + 1 ≠ 0; omega
      refine ⟨_, _, hR, arrow_left_ok _ hv1, ?_, ?_⟩
      · rw [if_pos hne]; show E.cx + 1 - 1 = E.cx; omega
      · rw [if_pos hne]
    · have hR : editorMoveCursor E ARROW_RIGHT = .ok { E with cy := E.cy + 1, cx := 0 } := by
        rw [arrow_right_ok E hv' hlt, if_neg hc]
      have hv1 : validCursor { E with cy := E.cy + 1, cx := 0 } := by
        refine ⟨?_, ?_, le_refl _, cursorRowLen_nonneg _⟩
        · show 0 ≤ E.cy + 1; omega
        · show E.cy + 1 ≤ E.numRows; omega
      have hne : ¬ ({ E with cy := E.cy + 1, cx := 0 } : editorConfig).cx ≠ 0 := by
        simp
      have hpos : ({ E with cy := E.cy + 1, cx := 0 } : editorConfig).cy > 0 := by
        show E.cy + 1 > 0; omega
      have hback : rowAt E (E.cy + 1 - 1) = .ok r := by
        rw [show E.cy + 1 - 1 = E.cy by omega]; exact hr
      refine ⟨_, _, hR, arrow_left_ok _ hv1, ?_, ?_⟩
      · rw [if_neg hne, if_pos hpos]
        show cursorRowLen { E with cy := E.cy + 1 - 1, cx := 0 } = E.cx
        have : rowAt ({ E with cy := E.cy + 1 - 1, cx := 0 } : editorConfig) (E.cy + 1 - 1)
            = .ok r := hback
        simp only [cursorRowLen, this]
        omega
      · rw [if_neg hne, if_pos hpos]
        show E.cy + 1 - 1 = E.cy; omega
  · intro hnz
    by_cases hcx : E.cx ≠ 0
    · have hlt : E.cy < E.numRows := validCursor_lt_of_cx E hv' hcx
      have hL : editorMoveCursor E ARROW_LEFT = .ok { E with cx := E.cx - 1 } := by
        rw [arrow_left_ok E hv', if_pos hcx]
      have hv1 : validCursor { E with cx := E.cx - 1 } := by
        refine ⟨hcy0, hcy1, ?_, ?_⟩
        · show 0 ≤ E.cx - 1; omega
        · show E.cx - 1 ≤ cursorRowLen E; omega
      have hc : ({ E with cx := E.cx - 1 } : editorConfig).cx
          < cursorRowLen { E with cx := E.cx - 1 } := by
        show E.cx - 1 < cursorRowLen E; omega
      refine ⟨_, _, hL, arrow_right_ok _ hv1 hlt, ?_, ?_⟩
      · rw [if_pos hc]; show E.cx - 1 + 1 = E.cx; omega
      · rw [if_pos hc]
    · have hcx' : E.cx = 0 := by simpa using hcx
      have hcy : E.cy > 0 := by
        by_contra h; exact hnz ⟨hcx', by omega⟩
      have hL : editorMoveCursor E ARROW_LEFT
          = .ok { E with cy := E.cy - 1, cx := cursorRowLen { E with cy := E.cy - 1 } } := by
        rw [arrow_left_ok E hv', if_neg hcx, if_pos hcy]
      have hv1 : validCursor
          { E with cy := E.cy - 1, cx := cursorRowLen { E with cy := E.cy - 1 } } := by
        refine ⟨?_, ?_, cursorRowLen_nonneg _, le_refl _⟩
        · show 0 ≤ E.cy - 1; omega
        · show E.cy - 1 ≤ E.numRows; omega
      have hlt : ({ E with cy := E.cy - 1,
                           cx := cursorRowLen { E with cy := E.cy - 1 } } : editorConfig).cy
          < E.numRows := by
        show E.cy - 1 < E.numRows; omega
      have hc : ¬ (({ E with cy := E.cy - 1,
                             cx := cursorRowLen { E with cy := E.cy - 1 } } : editorConfig).cx
          < cursorRowLen { E with cy := E.cy - 1,
                                  cx := cursorRowLen { E with cy := E.cy - 1 } }) := by
        show ¬ (cursorRowLen { E with cy := E.cy - 1 } < cursorRowLen { E with cy := E.cy - 1 })
        exact lt_irrefl _
      refine ⟨_, _, hL, arrow_right_ok _ hv1 hlt, ?_, ?_⟩
      · rw [if_neg hc]; exact hcx'.symm
      · rw [if_neg hc]; show E.cy - 1 + 1 = E.cy; omega

/-- C20 at two rows `"ab"`, `"c"` with the cursor at the end of row `0`. -/
theorem left_right_inverse_witness :
    validCursor (docState [[97, 98], [99]] 2 0)
    ∧ (docState [[97, 98], [99]] 2 0).cy < (docState [[97, 98], [99]] 2 0).numRows
    ∧ ¬ ((docState [[97, 98], [99]] 2 0).cx = 0 ∧ (docState [[97, 98], [99]] 2 0).cy = 0)
    ∧ (∃ E1 E2, editorMoveCursor (docState [[97, 98], [99]] 2 0) ARROW_RIGHT = .ok E1
        ∧ editorMoveCursor E1 ARROW_LEFT = .ok E2
        ∧ E2.cx = (docState [[97, 98], [99]] 2 0).cx
        ∧ E2.cy = (docState [[97, 98], [99]] 2 0).cy)
    ∧ (∃ E1 E2, editorMoveCursor (docState [[97, 98], [99]] 2 0) ARROW_LEFT = .ok E1
        ∧ editorMoveCursor E1 ARROW_RIGHT = .ok E2
        ∧ E2.cx = (docState [[97, 98], [99]] 2 0).cx
        ∧ E2.cy = (docState [[97, 98], [99]] 2 0).cy) :=
  ⟨by decide, by decide, by decide,
   (left_right_inverse (docState [[97, 98], [99]] 2 0) (by decide)).1 (by decide),
   (left_right_inverse (docState [[97, 98], [99]] 2 0) (by decide)).2 (by decide)⟩

/-! ## Lemmas on scrolling -/

theorem editorScroll_of_rx (E : editorConfig) (rx : Int) (h : cursorRx E = .ok rx) :
    editorScroll E = .ok
      { E with
        rx := rx,
        rowOff :=
          if E.cy ≥ (if E.cy < E.rowOff then E.cy else E.rowOff) + E.screenRows
          then E.cy - E.screenRows + 1
          else (if E.cy < E.rowOff then E.cy else E.rowOff),
        colOff :=
          if rx ≥ (if rx < E.colOff then rx else E.colOff) + E.screenCols
          then rx - E.screenCols + 1
          else (if rx < E.colOff then rx else E.colOff) } := by
  unfold cursorRx at h
  by_cases hlt : E.cy < E.numRows
  · have hlt2 : E.cy < ({ E with rx := 0 } : editorConfig).numRows := hlt
    rw [if_pos hlt] at h
    cases hr : rowAt E E.cy with
    | error e => rw [hr] at h; cases h
    | ok r =>
      rw [hr] at h
      have h2 : cxToRx r E.cx = .ok rx := h
      have hr2 : rowAt ({ E with rx := 0 } : editorConfig) E.cy = .ok r := hr
      simp only [editorScroll, hlt2, if_true, hr2, h2]
      split_ifs <;> rfl
  · have hlt2 : ¬ E.cy < ({ E with rx := 0 } : editorConfig).numRows := hlt
    rw [if_neg hlt] at h
    cases h
    simp only [editorScroll, hlt2, if_false]
    split_ifs <;> rfl

theorem editorScroll_rx (E E1 : editorConfig) (h : editorScroll E = .ok E1) :
    cursorRx E = .ok E1.rx := by
  cases hrx : cursorRx E with
  | ok rx =>
    rw [editorScroll_of_rx E rx hrx] at h
    cases h
    rfl
  | error e =>
    exfalso
    unfold cursorRx at hrx
    by_cases hlt : E.cy < E.numRows
    · have hlt2 : E.cy < ({ E with rx := 0 } : editorConfig).numRows := hlt
      rw [if_pos hlt] at hrx
      cases hr : rowAt E E.cy with
      | error e2 =>
        have hr2 : rowAt ({ E with rx := 0 } : editorConfig) E.cy = .error e2 := hr
        simp only [editorScroll, hlt2, if_true, hr2] at h
        cases h
      | ok r =>
        rw [hr] at hrx
        have hrx2 : cxToRx r E.cx = .error e := hrx
        have hr2 : rowAt ({ E with rx := 0 } : editorConfig) E.cy = .ok r := hr
        simp only [editorScroll, hlt2, if_true, hr2, hrx2] at h
        cases h
    · rw [if_neg hlt] at hrx
      cases hrx

theorem cursorRx_ok (E : editorConfig) (hv : validCursor E) :
    ∃ rx, cursorRx E = .ok rx ∧ 0 ≤ rx := by
  obtain ⟨hcy0, hcy1, hcx0, hcx1⟩ := hv
  unfold cursorRx
  by_cases hlt : E.cy < E.numRows
  · obtain ⟨r, hr, _⟩ := rowAt_ok E E.cy hcy0 hlt
    have hsz : E.cx ≤ r.size := by simpa [cursorRowLen, hr] using hcx1
    obtain ⟨rx, hrx, h0⟩ := cxToRx_ok r E.cx hsz
    exact ⟨rx, by simp only [hlt, if_true, hr, hrx], h0⟩
  · exact ⟨0, by simp only [hlt, if_false], le_refl 0⟩

/-! ## C13: the exact scroll jump -/

/-- C13. For every state with `screenRows >= 1`: whenever `editorScroll` has a
result (it has one for every valid cursor), `rowOff` becomes `cy` when
`cy < rowOff`, `cy - screenRows + 1` when `cy >= rowOff + screenRows`, and stays
otherwise; with `screenCols >= 1` the same rule holds for `colOff` against `rx`
and `screenCols`, `rx` being the render column of the cursor; no field other
than `rx`, `rowOff` and `colOff` changes. -/
theorem editorScroll_exact (E : editorConfig) (hr : 1 ≤ E.screenRows) :
    (validCursor E → ∃ E1, editorScroll E = .ok E1)
    ∧ ∀ E1, editorScroll E = .ok E1 →
        E1.rowOff = (if E.cy < E.rowOff then E.cy
                     else if E.cy ≥ E.rowOff + E.screenRows then E.cy - E.screenRows + 1
                     else E.rowOff)
        ∧ cursorRx E = .ok E1.rx
        ∧ (1 ≤ E.screenCols →
            E1.colOff = (if E1.rx < E.colOff then E1.rx
                         else if E1.rx ≥ E.colOff + E.screenCols then E1.rx - E.screenCols + 1
                         else E.colOff))
        ∧ E1.cx = E.cx ∧ E1.cy = E.cy ∧ E1.screenRows = E.screenRows
        ∧ E1.screenCols = E.screenCols ∧ E1.dirty = E.dirty ∧ E1.row = E.row
        ∧ E1.numRows = E.numRows ∧ E1.fileName = E.fileName ∧ E1.statusMsg = E.statusMsg
        ∧ E1.statusMsgTime = E.statusMsgTime := by
  constructor
  · intro hv
    obtain ⟨rx, hrx, _⟩ := cursorRx_ok E hv
    exact ⟨_, editorScroll_of_rx E rx hrx⟩
  · intro E1 h
    have hrx := editorScroll_rx E E1 h
    generalize E1.rx = rx at hrx
    rw [editorScroll_of_rx E rx hrx] at h
    cases h
    refine ⟨?_, hrx, ?_, rfl, rfl, rfl, rfl, rfl, rfl, rfl, rfl, rfl, rfl⟩
    · simp only
      split_ifs <;> omega
    · intro hc
      simp only
      split_ifs <;> omega

/-- C13 at 26 rows, `screenRows = 10`, `rowOff = 0`, `cy = 25`: `rowOff` becomes
`16`. -/
theorem editorScroll_exact_witness :
    1 ≤ ({ docState (List.replicate 26 []) 0 25 with screenRows := 10 } : editorConfig).screenRows
    ∧ validCursor { docState (List.replicate 26 []) 0 25 with screenRows := 10 }
    ∧ ∃ E1, editorScroll { docState (List.replicate 26 []) 0 25 with screenRows := 10 } = .ok E1
        ∧ E1.rowOff = 16 := by
  obtain ⟨E1, h⟩ :=
    (editorScroll_exact { docState (List.replicate 26 []) 0 25 with screenRows := 10 }
      (by decide)).1 (by decide)
  have h2 := (editorScroll_exact { docState (List.replicate 26 []) 0 25 with screenRows := 10 }
      (by decide)).2 E1 h
  exact ⟨by decide, by decide, E1, h, h2.1.trans (by decide)⟩

/-! ## C16: rebuilding the render cache twice -/

/-- C16, the code at a failing input: the row `"abc\tabc\t"` rebuilt twice with
`chars` unchanged, the first call finding `0` and the second `1` in the
uninitialised `idx` of line 192.  Both calls stay inside the 15 bytes of line
190; the first leaves `rsize = 8`, the second `rsize = 12` and other render
bytes.  With `21997` in `idx` (row `"a"`) the writes leave the block. -/
theorem rebuild_follows_stray_index :
    (∃ r1 r2, editorUpdateRowFrom 0 zeroJunk (freshRow [97, 98, 99, 9, 97, 98, 99, 9]) = .ok r1
        ∧ editorUpdateRowFrom 1 zeroJunk r1 = .ok r2
        ∧ r2.chars = r1.chars
        ∧ r1.rsize = 8 ∧ r2.rsize = 12
        ∧ r1.render = [97, 98, 99, 9, 97, 98, 99, 9]
        ∧ r2.render = [0, 97, 98, 99, 9, 32, 32, 32, 97, 98, 99, 9]
        ∧ r1.render ≠ r2.render ∧ r1.rsize ≠ r2.rsize)
    ∧ renderAlloc (freshRow [97, 98, 99, 9, 97, 98, 99, 9]) = 15
    ∧ editorUpdateRowFrom 21997 zeroJunk (freshRow [97]) = .error .outOfBounds := by
  refine ⟨⟨_, _, rfl, rfl, rfl, rfl, rfl, rfl, rfl, by decide, by decide⟩, rfl, rfl⟩

/-! ## C17: the dirty counter -/

theorem cxToRxStep_bounds (idx ch : Nat) :
    idx + 1 ≤ cxToRxStep idx ch
    ∧ cxToRxStep idx ch ≤ idx + 1 + (if ch = TAB then 1 else 0) * (EDITOR_TAB_STOP - 1) := by
  by_cases h : ch = TAB
  · simp only [cxToRxStep, h, if_true, EDITOR_TAB_STOP]; omega
  · simp only [cxToRxStep, h, if_false, EDITOR_TAB_STOP]; omega

theorem updateLoop_bounds (cs : List Nat) : ∀ (idx : Nat) (out : List Nat),
    idx + cs.length ≤ (updateLoop cs idx out).1
    ∧ (updateLoop cs idx out).1 ≤ idx + cs.length + countTabs cs * (EDITOR_TAB_STOP - 1) := by
  induction cs with
  | nil => intro idx out; simp [updateLoop, countTabs]
  | cons ch rest ih =>
    intro idx out
    rw [updateLoop_cons]
    have h1 := ih (cxToRxStep idx ch) (out ++ renderByte idx ch)
    have h2 := cxToRxStep_bounds idx ch
    simp only [List.length_cons, countTabs]
    constructor
    · omega
    · have : ((if ch = TAB then 1 else 0) + countTabs rest) * (EDITOR_TAB_STOP - 1)
          = (if ch = TAB then 1 else 0) * (EDITOR_TAB_STOP - 1)
            + countTabs rest * (EDITOR_TAB_STOP - 1) := by ring
      omega

theorem countTabs_take_le (cs : List Nat) : ∀ k, countTabs (cs.take k) ≤ countTabs cs := by
  induction cs with
  | nil => intro k; simp [countTabs]
  | cons ch rest ih =>
    intro k
    cases k with
    | zero => simp [countTabs]
    | succ k =>
      simp only [List.take_succ_cons, countTabs]
      have := ih k
      omega

theorem editorUpdateRowFrom_zero (junk : Nat → Nat) (row : erow) :
    editorUpdateRowFrom 0 junk row = .ok (editorUpdateRow row) := by
  have hb := (updateLoop_bounds row.chars 0 []).2
  have hle : (updateLoop row.chars 0 []).1 + 1 ≤ renderAlloc row := by
    simp only [renderAlloc]; omega
  simp [editorUpdateRowFrom, editorUpdateRow, hle]

theorem padLoop_le (n : Nat) : ∀ (i : Nat) (out : List Nat),
    i ≤ (padLoop n i out).1 ∧ (padLoop n i out).1 ≤ i + (4 - i % 4) % 4 := by
  induction n with
  | zero => intro i out; simp [padLoop]
  | succ n ih =>
    intro i out
    by_cases hi : i % 4 = 0
    · simp [padLoop, EDITOR_TAB_STOP, hi]
    · rw [padLoop, if_pos (by simpa [EDITOR_TAB_STOP] using hi)]
      have := ih (i + 1) (out ++ [SPACE])
      omega

/-- C18. For every row with `t` tab bytes the write index of `editorUpdateRow`,
started at `0`, is at most `size + t * (EDITOR_TAB_STOP - 1)` after any number of
bytes of `chars` and after any number of rounds of the padding loop that
follows a tab; so `rsize <= size + t * (EDITOR_TAB_STOP - 1)` and `size <= rsize`.
The bytes written are those at the indices below `rsize` (the cache has `rsize`
bytes), the terminator goes to index `rsize`, and `rsize + 1` is at most the
`size + t * (EDITOR_TAB_STOP - 1) + 1` bytes that line 190 allocates. -/
theorem render_within_allocation (row : erow) :
    (∀ k, (updateLoop (row.chars.take k) 0 []).1
        ≤ row.chars.length + countTabs row.chars * (EDITOR_TAB_STOP - 1))
    ∧ (∀ (k n : Nat) (out : List Nat), row.chars.get? k = some TAB →
        (padLoop n ((updateLoop (row.chars.take k) 0 []).1 + 1) out).1
          ≤ row.chars.length + countTabs row.chars * (EDITOR_TAB_STOP - 1))
    ∧ (editorUpdateRow row).rsize
        ≤ row.size + ((countTabs row.chars * (EDITOR_TAB_STOP - 1) : Nat) : Int)
    ∧ row.size ≤ (editorUpdateRow row).rsize
    ∧ (editorUpdateRow row).size = row.size
    ∧ (((editorUpdateRow row).render.length : Nat) : Int) = (editorUpdateRow row).rsize
    ∧ (editorUpdateRow row).rsize + 1 ≤ ((renderAlloc row : Nat) : Int) := by
  have hb := updateLoop_bounds row.chars 0 []
  have hl := updateLoop_length row.chars 0 []
  simp only [zero_add, List.length_nil, add_zero] at hb hl
  have hpre : ∀ k, (updateLoop (row.chars.take k) 0 []).1
      ≤ row.chars.length + countTabs row.chars * (EDITOR_TAB_STOP - 1) := by
    intro k
    have h1 := (updateLoop_bounds (row.chars.take k) 0 []).2
    have h2 := countTabs_take_le row.chars k
    have h3 : (row.chars.take k).length ≤ row.chars.length := by
      rw [List.length_take]; exact Nat.min_le_right _ _
    have h4 : countTabs (row.chars.take k) * (EDITOR_TAB_STOP - 1)
        ≤ countTabs row.chars * (EDITOR_TAB_STOP - 1) := Nat.mul_le_mul_right _ h2
    omega
  refine ⟨hpre, ?_, ?_, ?_, rfl, ?_, ?_⟩
  · intro k n out hk
    have hnext : (updateLoop (row.chars.take (k + 1)) 0 []).1
        = cxToRxStep (updateLoop (row.chars.take k) 0 []).1 TAB := by
      have ht : row.chars.take (k + 1) = row.chars.take k ++ [TAB] := by
        rw [List.take_succ]
        have : row.chars[k]? = some TAB := by simpa using hk
        rw [this]; rfl
      rw [ht, updateLoop_append, updateLoop_cons]
      simp [updateLoop]
    have h1 := (padLoop_le n ((updateLoop (row.chars.take k) 0 []).1 + 1) out).2
    have h2 := hpre (k + 1)
    rw [hnext] at h2
    simp only [cxToRxStep, if_true, EDITOR_TAB_STOP] at h2
    simp only [EDITOR_TAB_STOP]
    omega
  · simp only [editorUpdateRow, erow.size]
    exact_mod_cast hb.2
  · simp only [editorUpdateRow, erow.size]
    exact_mod_cast hb.1
  · simp only [editorUpdateRow]
    exact_mod_cast hl.symm
  · simp only [editorUpdateRow, renderAlloc]
    have := hb.2
    push_cast
    omega

/-! ## C14: the frame written by `editorRefreshScreen` -/

/-- C14, the code at a failing input: the empty document in a window of 5
lines and 30 columns.  The frame starts with the hide-cursor sequence, but the
three bytes after it are the letters `x`, `1`, `b`, the first three characters
of the literal `"x1b[H"` of line 535, and not `ESC [ H`.  The frame does end with
the cursor-position sequence, here `ESC [ 1 ; 1 H`, and the show-cursor
sequence. -/
theorem refresh_prologue_is_literal_text :
    ∃ E1 out, editorRefreshScreen (initEditor 5 30) 0 = .ok (E1, out)
      ∧ out.take 9 = HIDE_CURSOR ++ [120, 49, 98]
      ∧ out.take 9 ≠ HIDE_CURSOR ++ CURSOR_HOME
      ∧ (cursorPosText E1 ++ SHOW_CURSOR) <:+ out
      ∧ cursorPosText E1 = [27, 91, 49, 59, 49, 72] := by
  refine ⟨_, _, rfl, by decide, by decide, by decide, by decide⟩

/-! ## C15: the welcome banner -/

/-- C15, the code at a failing input: the empty document in a window of 5
lines and 30 columns (`screenRows = 3`, wider than the banner).  Screen row
`screenRows / 3 = 1` is drawn as `~` and two padding spaces, every row ends with
`ESC [ K` and CRLF, and the text `"Editor -- version 1.0.0"` occurs nowhere in the
output: lines 464-475 measure the text and write the padding, and no call
appends the text. -/
theorem welcome_text_not_drawn :
    (initEditor 5 30).numRows = 0
    ∧ (welcomeText.length : Int) ≤ (initEditor 5 30).screenCols
    ∧ Int.tdiv (initEditor 5 30).screenRows 3 = 1
    ∧ editorDrawRows (initEditor 5 30) []
        = .ok (TILDE ++ CLEAR_LINE ++ CRLF
               ++ (TILDE ++ [SPACE, SPACE]) ++ CLEAR_LINE ++ CRLF
               ++ TILDE ++ CLEAR_LINE ++ CRLF)
    ∧ ¬ (welcomeText <:+: TILDE ++ CLEAR_LINE ++ CRLF
               ++ (TILDE ++ [SPACE, SPACE]) ++ CLEAR_LINE ++ CRLF
               ++ TILDE ++ CLEAR_LINE ++ CRLF) := by
  refine ⟨rfl, by decide, by decide, rfl, by decide⟩

/-! ## Lemmas on drawing -/

theorem abAppend_ok (ab s : List Nat) (len : Int) (h0 : 0 ≤ len) (h1 : len ≤ (s.length : Int)) :
    abAppend ab s len = .ok (ab ++ s.take len.toNat) := by
  simp [abAppend, h0, h1]

theorem paddingLoop_ok (n : Nat) : ∀ ab, ∃ out, paddingLoop n ab = .ok out := by
  induction n with
  | zero => intro ab; exact ⟨ab, rfl⟩
  | succ n ih =>
    intro ab
    obtain ⟨out, h⟩ := ih (ab ++ [SPACE])
    refine ⟨out, ?_⟩
    rw [paddingLoop, abAppend_ok ab [SPACE] 1 (by decide) (by decide)]
    simpa using h

theorem drawWelcome_ok (E : editorConfig) (ab : List Nat) :
    ∃ out, drawWelcome E ab = .ok out := by
  unfold drawWelcome
  simp only
  generalize hw : (if (welcomeText.length : Int) > E.screenCols then E.screenCols
    else (welcomeText.length : Int)) = welcomeLen
  have hle : 0 ≤ E.screenCols - welcomeLen := by
    rw [← hw]; split_ifs <;> omega
  have hp : 0 ≤ Int.tdiv (E.screenCols - welcomeLen) 2 := Int.tdiv_nonneg hle (by decide)
  by_cases hz : Int.tdiv (E.screenCols - welcomeLen) 2 ≠ 0
  · rw [if_pos hz, abAppend_ok ab TILDE 1 (by decide) (by decide)]
    simp only
    have : ¬ (Int.tdiv (E.screenCols - welcomeLen) 2 - 1 < 0) := by omega
    rw [if_neg this]
    exact paddingLoop_ok _ _
  · rw [if_neg hz]
    have : ¬ (Int.tdiv (E.screenCols - welcomeLen) 2 < 0) := by omega
    rw [if_neg this]
    exact paddingLoop_ok _ _

theorem sliceLen_bounds (E : editorConfig) (r : erow) :
    (0 < sliceLen E r → E.colOff + sliceLen E r ≤ r.rsize ∧ sliceLen E r ≤ E.screenCols)
    ∧ (0 ≤ E.screenCols → 0 ≤ sliceLen E r)
    ∧ (sliceLen E r ≤ 0 ∨ sliceLen E r ≤ r.rsize - E.colOff) := by
  unfold sliceLen
  simp only
  split_ifs <;> refine ⟨?_, ?_, ?_⟩ <;> intros <;> omega

theorem drawRow_ok (E : editorConfig) (i : Int) (ab : List Nat)
    (h0 : 0 ≤ i + E.rowOff) (hsc : 0 ≤ E.screenCols) (hco : 0 ≤ E.colOff)
    (hwf : ∀ r ∈ E.row, r.rsize = (r.render.length : Int)) :
    ∃ out, drawRow E i ab = .ok out := by
  have hline : ∃ ab1, (if i + E.rowOff ≥ E.numRows then
        if E.numRows = 0 ∧ i = Int.tdiv E.screenRows 3 then drawWelcome E ab
        else abAppend ab TILDE 1
      else
        match rowAt E (i + E.rowOff) with
        | .ok r => abAppend ab (renderFrom r E.colOff) (sliceLen E r)
        | .error e => .error e) = .ok ab1 := by
    by_cases hge : i + E.rowOff ≥ E.numRows
    · rw [if_pos hge]
      split_ifs
      · exact drawWelcome_ok E ab
      · exact ⟨_, abAppend_ok ab TILDE 1 (by decide) (by decide)⟩
    · rw [if_neg hge]
      obtain ⟨r, hr, hget⟩ := rowAt_ok E (i + E.rowOff) h0 (by omega)
      have hmem : r ∈ E.row := List.get?_mem hget
      have hrs := hwf r hmem
      have hb := sliceLen_bounds E r
      simp only [hr]
      refine ⟨_, abAppend_ok ab _ _ (hb.2.1 hsc) ?_⟩
      simp only [renderFrom, hco, if_true, List.length_drop]
      rcases hb.2.2 with h | h
      · have := hb.2.1 hsc
        omega
      · omega
  obtain ⟨ab1, h1⟩ := hline
  refine ⟨ab1 ++ CLEAR_LINE ++ CRLF, ?_⟩
  unfold drawRow
  simp only [h1]
  rw [abAppend_ok ab1 CLEAR_LINE 3 (by decide) (by decide)]
  simp only
  rw [abAppend_ok _ CRLF 2 (by decide) (by decide)]
  rfl

theorem drawRowsLoop_ok (E : editorConfig) (hro : 0 ≤ E.rowOff) (hsc : 0 ≤ E.screenCols)
    (hco : 0 ≤ E.colOff) (hwf : ∀ r ∈ E.row, r.rsize = (r.render.length : Int)) (n : Nat) :
    ∀ (i : Int) (ab : List Nat), 0 ≤ i → ∃ out, drawRowsLoop E n i ab = .ok out := by
  induction n with
  | zero => intro i ab _; exact ⟨ab, rfl⟩
  | succ n ih =>
    intro i ab hi
    obtain ⟨ab1, h1⟩ := drawRow_ok E i ab (by omega) hsc hco hwf
    obtain ⟨out, h2⟩ := ih (i + 1) ab1 (by omega)
    exact ⟨out, by simp only [drawRowsLoop, h1, h2]⟩

theorem editorScroll_offsets (E : editorConfig) (hv : validCursor E)
    (hro : 0 ≤ E.rowOff) (hco : 0 ≤ E.colOff) :
    ∃ E1, editorScroll E = .ok E1 ∧ 0 ≤ E1.rowOff ∧ 0 ≤ E1.colOff
      ∧ E1.row = E.row ∧ E1.screenCols = E.screenCols := by
  obtain ⟨rx, hrx, hrx0⟩ := cursorRx_ok E hv
  have hcy0 : 0 ≤ E.cy := hv.1
  refine ⟨_, editorScroll_of_rx E rx hrx, ?_, ?_, rfl, rfl⟩
  · simp only
    split_ifs <;> omega
  · simp only
    split_ifs <;> omega

/-! ## C19: the rows drawn after a scroll are in range -/

/-- Drawing after a scroll.  For every state with a valid cursor,
`rowOff >= 0` and `colOff >= 0`, `editorScroll` returns a state with `rowOff >= 0`
and `colOff >= 0`; for every screen row `i` the index `fileRow = i + rowOff` is
not negative and `E.row[fileRow]` is read only when `fileRow < numRows`; a slice
length `len > 0` has `colOff + len <= rsize` and `len <= screenCols`.  The reads
of `editorDrawRows` stay in range when moreover `screenCols >= 0` and every
row has `rsize` equal to the length of its render cache, which is what
`editorUpdateRow` leaves when its write index starts at `0`. -/
theorem drawn_rows_in_range_of_rsize (E : editorConfig) (hv : validCursor E)
    (hro : 0 ≤ E.rowOff) (hco : 0 ≤ E.colOff) :
    ∃ E1, editorScroll E = .ok E1 ∧ 0 ≤ E1.rowOff ∧ 0 ≤ E1.colOff
      ∧ (∀ i : Int, 0 ≤ i → i < E1.screenRows →
          0 ≤ i + E1.rowOff
          ∧ (i + E1.rowOff < E1.numRows →
              ∃ r, rowAt E1 (i + E1.rowOff) = .ok r
                ∧ (0 < sliceLen E1 r →
                    E1.colOff + sliceLen E1 r ≤ r.rsize ∧ sliceLen E1 r ≤ E1.screenCols)))
      ∧ (0 ≤ E.screenCols → (∀ r ∈ E.row, r.rsize = (r.render.length : Int)) →
          ∀ ab, ∃ out, editorDrawRows E1 ab = .ok out) := by
  obtain ⟨E1, h1, hro1, hco1, hrow, hsc1⟩ := editorScroll_offsets E hv hro hco
  refine ⟨E1, h1, hro1, hco1, ?_, ?_⟩
  · intro i hi0 _
    refine ⟨by omega, ?_⟩
    intro hlt
    obtain ⟨r, hr, _⟩ := rowAt_ok E1 (i + E1.rowOff) (by omega) hlt
    exact ⟨r, hr, (sliceLen_bounds E1 r).1⟩
  · intro hsc hwf ab
    unfold editorDrawRows
    exact drawRowsLoop_ok E1 hro1 (by rw [hsc1]; exact hsc) hco1 (by rw [hrow]; exact hwf)
      _ 0 ab (le_refl 0)

/-- C19, the code at a failing input: `strayRsizeState`, the one-row document
`"a"` whose row carries the `rsize = 21948` that `editorUpdateRow` stores when it
is entered with `21947` in its uninitialised `idx` (line 192; the block of line
190 has 2 bytes and both writes miss it).  The cursor is valid, `rowOff` and
`colOff` are `0` and `editorScroll` changes nothing; `editorDrawRows` then takes
`len = 80` for screen row `0`, with `colOff + len <= rsize`, and copies 80 bytes
out of the 2-byte cache. -/
theorem draw_rows_reads_past_cache :
    validCursor strayRsizeState
    ∧ 0 ≤ strayRsizeState.rowOff ∧ 0 ≤ strayRsizeState.colOff
    ∧ editorScroll strayRsizeState = .ok strayRsizeState
    ∧ (∃ r, rowAt strayRsizeState (0 + strayRsizeState.rowOff) = .ok r
        ∧ sliceLen strayRsizeState r = 80
        ∧ strayRsizeState.colOff + sliceLen strayRsizeState r ≤ r.rsize
        ∧ renderAlloc r = 2
        ∧ (r.render.length : Int) < strayRsizeState.colOff + sliceLen strayRsizeState r)
    ∧ editorDrawRows strayRsizeState [] = .error .outOfBounds
    ∧ (updateLoop [97] 21947 []).1 = 21948
    ∧ editorUpdateRowFrom 21947 zeroJunk (freshRow [97]) = .error .outOfBounds := by
  refine ⟨by decide, by decide, by decide, rfl, ⟨_, rfl, by decide, by decide, rfl, by decide⟩,
    rfl, by decide, rfl⟩

end TextEditor
